import Mathlib

/-!
Verification development for the "disregarded" essay service.

Modelling conventions:
* JavaScript strings are modelled as `List Nat` of their code units.  All data
  handled by the claims is ASCII, where UTF-16 code units, UTF-8 bytes and code
  points coincide, so `TextEncoder`/`TextDecoder` are identities of this
  representation.
* The SQLite store is modelled as an explicit `Store` value; every prepared
  query of `src/db/index.ts` becomes a pure function on `Store`, and each HTTP
  handler becomes a function from request data (and the ambient configuration,
  passed explicitly) to a result, returning the new store where the handler
  mutates it.
* `crypto.subtle` HMAC-SHA256, `btoa`/`atob` base64, and `JSON` serialization
  are platform primitives invoked by the source; they are modelled here
  bit-faithfully (SHA-256 per FIPS 180-4, forgiving-base64 per the WHATWG infra
  standard, and JSON on the exact grammar `JSON.stringify` emits for the token
  payload object).
* Machine integers are `Nat` with explicit reduction `% 2^32` where the
  32-bit SHA-256 arithmetic wraps.
-/

/-- Truncate to a 32-bit word. -/
def w32 (n : Nat) : Nat := n % 4294967296

/-- Right rotation of a 32-bit word by `n` places (for `x < 2^32`). -/
def rotr32 (n x : Nat) : Nat := x / 2 ^ n + x % 2 ^ n * 2 ^ (32 - n)

/-- SHA-256 Σ0. -/
def bigS0 (x : Nat) : Nat := rotr32 2 x ^^^ rotr32 13 x ^^^ rotr32 22 x

/-- SHA-256 Σ1. -/
def bigS1 (x : Nat) : Nat := rotr32 6 x ^^^ rotr32 11 x ^^^ rotr32 25 x

/-- SHA-256 σ0. -/
def smallS0 (x : Nat) : Nat := rotr32 7 x ^^^ rotr32 18 x ^^^ x / 2 ^ 3

/-- SHA-256 σ1. -/
def smallS1 (x : Nat) : Nat := rotr32 17 x ^^^ rotr32 19 x ^^^ x / 2 ^ 10

/-- SHA-256 choice function; complement is xor with the all-ones 32-bit mask. -/
def ch32 (x y z : Nat) : Nat := x &&& y ^^^ (x ^^^ 4294967295) &&& z

/-- SHA-256 majority function. -/
def maj32 (x y z : Nat) : Nat := x &&& y ^^^ x &&& z ^^^ y &&& z

/-- The 64 SHA-256 round constants (FIPS 180-4 §4.2.2, written in decimal). -/
def sha256K : List Nat :=
  [1116352408, 1899447441, 3049323471, 3921009573,
   961987163, 1508970993, 2453635748, 2870763221,
   3624381080, 310598401, 607225278, 1426881987,
   1925078388, 2162078206, 2614888103, 3248222580,
   3835390401, 4022224774, 264347078, 604807628,
   770255983, 1249150122, 1555081692, 1996064986,
   2554220882, 2821834349, 2952996808, 3210313671,
   3336571891, 3584528711, 113926993, 338241895,
   666307205, 773529912, 1294757372, 1396182291,
   1695183700, 1986661051, 2177026350, 2456956037,
   2730485921, 2820302411, 3259730800, 3345764771,
   3516065817, 3600352804, 4094571909, 275423344,
   430227734, 506948616, 659060556, 883997877,
   958139571, 1322822218, 1537002063, 1747873779,
   1955562222, 2024104815, 2227730452, 2361852424,
   2428436474, 2756734187, 3204031479, 3329325298]

/-- The SHA-256 initial hash value (FIPS 180-4 §5.3.3, written in decimal). -/
def sha256H0 : List Nat :=
  [1779033703, 3144134277, 1013904242, 2773480762,
   1359893119, 2600822924, 528734635, 1541459225]

/-- SHA-256 message padding: append `0x80`, zero bytes to 56 mod 64, then the
bit length as an 8-byte big-endian integer. -/
def sha256Pad (msg : List Nat) : List Nat :=
  let k := (119 - msg.length % 64) % 64
  let bitLen := 8 * msg.length
  msg ++ [128] ++ List.replicate k 0 ++
    (List.range 8).map (fun i => bitLen / 2 ^ (8 * (7 - i)) % 256)

/-- Assemble big-endian 32-bit words from a byte list. -/
def bytesToWords (l : List Nat) : List Nat :=
  (List.range (l.length / 4)).map (fun i =>
    l.getD (4 * i) 0 * 16777216 + l.getD (4 * i + 1) 0 * 65536 +
    l.getD (4 * i + 2) 0 * 256 + l.getD (4 * i + 3) 0)

/-- Extend the 16 block words to the 64-entry SHA-256 message schedule. -/
def sha256Schedule (ws : List Nat) : List Nat :=
  (List.range 48).foldl (fun acc _ =>
    let t := acc.length
    acc ++ [w32 (smallS1 (acc.getD (t - 2) 0) + acc.getD (t - 7) 0 +
                 smallS0 (acc.getD (t - 15) 0) + acc.getD (t - 16) 0)]) ws

/-- One SHA-256 block compression, acting on the 8-word chaining state. -/
def sha256Compress (h : List Nat) (block : List Nat) : List Nat :=
  let ws := sha256Schedule (bytesToWords block)
  let final := (List.range 64).foldl (fun st t =>
    match st with
    | [a, b, c, d, e, f, g, hh] =>
      let t1 := w32 (hh + bigS1 e + ch32 e f g + sha256K.getD t 0 + ws.getD t 0)
      let t2 := w32 (bigS0 a + maj32 a b c)
      [w32 (t1 + t2), a, b, c, w32 (d + t1), e, f, g]
    | other => other) h
  List.zipWith (fun x y => w32 (x + y)) h final

/-- SHA-256 of a byte list, as a 32-entry byte list (FIPS 180-4). -/
def sha256 (msg : List Nat) : List Nat :=
  let padded := sha256Pad msg
  let blocks := (List.range (padded.length / 64)).map
    (fun i => (padded.drop (64 * i)).take 64)
  let hFinal := blocks.foldl sha256Compress sha256H0
  hFinal.foldr (fun w acc =>
    w / 16777216 % 256 :: w / 65536 % 256 :: w / 256 % 256 :: w % 256 :: acc) []

/-- HMAC-SHA256 (RFC 2104) with a 64-byte block size; models the
`crypto.subtle` HMAC used by `src/lib/jwt.ts` for `sign`/`verify`. -/
def hmacSha256 (key msg : List Nat) : List Nat :=
  let k0 := if key.length > 64 then sha256 key else key
  let kPad := k0 ++ List.replicate (64 - k0.length) 0
  let ipad := kPad.map (fun b => b ^^^ 54)
  let opad := kPad.map (fun b => b ^^^ 92)
  sha256 (opad ++ sha256 (ipad ++ msg))

/-! ### Base64 (the `btoa`/`atob` platform primitives and the
base64url wrappers of `src/lib/jwt.ts`) -/

/-- The standard base64 alphabet as character codes. -/
def b64StdChars : List Nat :=
  (List.range 26).map (· + 65) ++ (List.range 26).map (· + 97) ++
  (List.range 10).map (· + 48) ++ [43, 47]

/-- Character for a 6-bit index. -/
def stdB64Char (i : Nat) : Nat := b64StdChars.getD i 65

/-- Index of a base64 character, `none` for characters outside the alphabet. -/
def b64CharIdx (c : Nat) : Option Nat := b64StdChars.findIdx? (fun x => x == c)

/-- Models `btoa` of a byte list: standard base64 with `=` padding. -/
def base64EncodeStd : List Nat → List Nat
  | [] => []
  | [a] => [stdB64Char (a / 4), stdB64Char (a % 4 * 16), 61, 61]
  | [a, b] => [stdB64Char (a / 4), stdB64Char (a % 4 * 16 + b / 16),
               stdB64Char (b % 16 * 4), 61]
  | a :: b :: c :: rest =>
      stdB64Char (a / 4) :: stdB64Char (a % 4 * 16 + b / 16) ::
      stdB64Char (b % 16 * 4 + c / 64) :: stdB64Char (c % 64) ::
      base64EncodeStd rest

/-- The `.replace(43, 45).replace(47, 95)` step of `uint8ArrayToBase64Url`. -/
def urlOfStd (c : Nat) : Nat := if c = 43 then 45 else if c = 47 then 95 else c

/-- The reverse character replacement done by `base64UrlToUint8Array`. -/
def stdOfUrl (c : Nat) : Nat := if c = 45 then 43 else if c = 95 then 47 else c

/-- Models `uint8ArrayToBase64Url` of `src/lib/jwt.ts`: `btoa`, then `+`→`-`,
`/`→`_`, and all `=` removed. -/
def uint8ArrayToBase64Url (arr : List Nat) : List Nat :=
  ((base64EncodeStd arr).map urlOfStd).filter (fun c => c != 61)

/-- Body decoding of forgiving-base64: full 4-character groups give 3 bytes, a
trailing group of 2 or 3 characters gives 1 or 2 bytes (surplus bits
discarded); a trailing single character or an invalid character is an error. -/
def decodeB64Body : List Nat → Option (List Nat)
  | [] => some []
  | [_] => none
  | [c1, c2] => do
      let i1 ← b64CharIdx c1
      let i2 ← b64CharIdx c2
      some [i1 * 4 + i2 / 16]
  | [c1, c2, c3] => do
      let i1 ← b64CharIdx c1
      let i2 ← b64CharIdx c2
      let i3 ← b64CharIdx c3
      some [i1 * 4 + i2 / 16, i2 % 16 * 16 + i3 / 4]
  | c1 :: c2 :: c3 :: c4 :: rest => do
      let i1 ← b64CharIdx c1
      let i2 ← b64CharIdx c2
      let i3 ← b64CharIdx c3
      let i4 ← b64CharIdx c4
      let tl ← decodeB64Body rest
      some ((i1 * 4 + i2 / 16) :: (i2 % 16 * 16 + i3 / 4) :: (i3 % 4 * 64 + i4) :: tl)

/-- Remove up to two trailing `=` characters. -/
def stripPad61 (s : List Nat) : List Nat :=
  match s.reverse with
  | 61 :: 61 :: t => t.reverse
  | 61 :: t => t.reverse
  | _ => s

/-- ASCII whitespace, which step 1 of forgiving-base64 removes. -/
def isAsciiWs (c : Nat) : Bool :=
  decide (c = 9 ∨ c = 10 ∨ c = 12 ∨ c = 13 ∨ c = 32)

/-- Models `atob`: forgiving-base64 decode (WHATWG infra standard): remove all
ASCII whitespace, strip up to two trailing `=` when the remaining length is a
multiple of four, then decode the body.  Returns `none` where the browser
primitive throws `InvalidCharacterError`. -/
def atobDecode (s : List Nat) : Option (List Nat) :=
  let t := s.filter (fun c => not (isAsciiWs c))
  decodeB64Body (if t.length % 4 == 0 then stripPad61 t else t)

/-- Models `base64UrlToUint8Array` of `src/lib/jwt.ts`: map `-`→`+`, `_`→`/`, re-add
`=` padding, `atob`.  `none` models the exception path. -/
def base64UrlToUint8Array (s : List Nat) : Option (List Nat) :=
  let b64 := s.map stdOfUrl
  atobDecode (b64 ++ List.replicate ((4 - b64.length % 4) % 4) 61)

/-! ### JSON for the JWT header and payload objects

`createToken` serializes fixed-shape object literals with `JSON.stringify`
and `verifyToken` reads the payload back with `JSON.parse`.  The serializer
below reproduces `JSON.stringify` byte-for-byte on those objects (insertion
key order, no spaces) for field values free of `"`/`\`/control characters;
the parser models `JSON.parse` on exactly that canonical grammar. -/

/-- The decoded claims carried by a token (`JWTPayload` in `src/lib/jwt.ts`). -/
structure JWTPayload where
  userId : Nat
  username : List Nat
  iat : Nat
  exp : Nat
deriving DecidableEq, Repr

/-- Bytes of the fixed serialized header object with `alg` HS256, `typ` JWT. -/
def jwtHeaderJson : List Nat :=
  [123, 34, 97, 108, 103, 34, 58, 34, 72, 83, 50, 53, 54, 34, 44,
   34, 116, 121, 112, 34, 58, 34, 74, 87, 84, 34, 125]

/-- Bytes of the serialized-object opener up to the `userId` value. -/
def jsonKeyUserId : List Nat := [123, 34, 117, 115, 101, 114, 73, 100, 34, 58]

/-- Bytes between the `userId` value and the `username` string content. -/
def jsonKeyUsername : List Nat :=
  [44, 34, 117, 115, 101, 114, 110, 97, 109, 101, 34, 58, 34]

/-- Bytes between the closing quote of `username` and the `iat` value. -/
def jsonKeyIat : List Nat := [44, 34, 105, 97, 116, 34, 58]

/-- Bytes between the `iat` value and the `exp` value. -/
def jsonKeyExp : List Nat := [44, 34, 101, 120, 112, 34, 58]

/-- Decimal digit characters of a natural number, with structural fuel so the
definition reduces inside the kernel (`fuel > n` always suffices). -/
def natToDigitsAux : Nat → Nat → List Nat
  | 0, _ => []
  | fuel + 1, n =>
    if n < 10 then [48 + n] else natToDigitsAux fuel (n / 10) ++ [48 + n % 10]

/-- Decimal digit characters of a natural number. -/
def natToDigits (n : Nat) : List Nat := natToDigitsAux (n + 1) n

/-- Models `JSON.stringify` of the payload object literal of `createToken`. -/
def payloadJson (p : JWTPayload) : List Nat :=
  jsonKeyUserId ++ natToDigits p.userId ++ jsonKeyUsername ++ p.username ++
    [34] ++ jsonKeyIat ++ natToDigits p.iat ++ jsonKeyExp ++
    natToDigits p.exp ++ [125]

/-- ASCII decimal digit test. -/
def isDigitCode (c : Nat) : Bool := decide (48 ≤ c ∧ c ≤ 57)

/-- Consume an expected literal from the front of the input. -/
def dropLit (lit s : List Nat) : Option (List Nat) :=
  if lit.isPrefixOf s then some (s.drop lit.length) else none

/-- Value of a digit-character list. -/
def digitsVal (ds : List Nat) : Nat := ds.foldl (fun acc d => acc * 10 + (d - 48)) 0

/-- Parse a nonempty maximal run of decimal digits. -/
def parseNatField (s : List Nat) : Option (Nat × List Nat) :=
  match s.takeWhile isDigitCode with
  | [] => none
  | ds => some (digitsVal ds, s.dropWhile isDigitCode)

/-- Parse an escape-free JSON string body up to and including its closing
quote. -/
def parseStrField (s : List Nat) : Option (List Nat × List Nat) :=
  let u := s.takeWhile (fun c => c != 34)
  if u.all (fun c => c != 92) then
    match s.dropWhile (fun c => c != 34) with
    | 34 :: rest => some (u, rest)
    | _ => none
  else none

/-- Models `JSON.parse` on the canonical payload serialization grammar. -/
def parsePayload (s : List Nat) : Option JWTPayload := do
  let s1 ← dropLit jsonKeyUserId s
  let (uid, s2) ← parseNatField s1
  let s3 ← dropLit jsonKeyUsername s2
  let (uname, s4) ← parseStrField s3
  let s5 ← dropLit jsonKeyIat s4
  let (iatV, s6) ← parseNatField s5
  let s7 ← dropLit jsonKeyExp s6
  let (expV, s8) ← parseNatField s7
  let s9 ← dropLit [125] s8
  if s9.isEmpty then some ⟨uid, uname, iatV, expV⟩ else none

/-! ### Token service (`src/lib/jwt.ts`) -/

/-- Models `sign` of `src/lib/jwt.ts`: base64url of the HMAC-SHA256 over the data. -/
def jwtSignData (secret data : List Nat) : List Nat :=
  uint8ArrayToBase64Url (hmacSha256 secret data)

/-- Models `createToken`: header and payload each JSON-serialized, UTF-8 encoded and
base64url encoded, joined by `.` (46) together with the signature over
`headerB64.payloadB64`.  `iat` is `now`, `exp` is `now + expiry`. -/
def createToken (secret : List Nat) (expiry : Nat) (userId : Nat)
    (username : List Nat) (now : Nat) : List Nat :=
  let headerB64 := uint8ArrayToBase64Url jwtHeaderJson
  let payloadB64 :=
    uint8ArrayToBase64Url (payloadJson ⟨userId, username, now, now + expiry⟩)
  let dataToSign := headerB64 ++ [46] ++ payloadB64
  dataToSign ++ [46] ++ jwtSignData secret dataToSign

/-- Models `String.prototype.split` on a separator character. -/
def splitOnByte (d : Nat) : List Nat → List (List Nat)
  | [] => [[]]
  | c :: rest =>
    match splitOnByte d rest with
    | [] => [[]]
    | h :: t => if c == d then [] :: h :: t else (c :: h) :: t

/-- Models `verifyToken`: split on `.` into exactly three parts, base64url-decode the
signature and compare it with the recomputed HMAC (`crypto.subtle.verify`'s
byte comparison), decode and parse the payload, reject if `exp < now`.
Every failure path of the source — including the exceptions swallowed by its
`try`/`catch` — returns `none`, so the function never throws by
construction. -/
def verifyToken (secret : List Nat) (token : List Nat) (now : Nat) :
    Option JWTPayload :=
  match splitOnByte 46 token with
  | [headerB64, payloadB64, signature] =>
    let dataToVerify := headerB64 ++ [46] ++ payloadB64
    match base64UrlToUint8Array signature with
    | none => none
    | some sigBytes =>
      if sigBytes == hmacSha256 secret dataToVerify then
        match base64UrlToUint8Array payloadB64 with
        | none => none
        | some payloadBytes =>
          match parsePayload payloadBytes with
          | none => none
          | some payload => if payload.exp < now then none else some payload
      else none
  | _ => none

/-- Concrete demonstration token: the byte string produced by
`createToken [115, 101, 99] 100 1 [97] 5` (secret the three bytes of a short
word, expiry 100 seconds, user id 1, a one-letter username, issued at time 5),
spelled out literally so that facts about its shape evaluate cheaply; the
equality with `createToken` is proved below. -/
def demoToken : List Nat :=
  [101, 121, 74, 104, 98, 71, 99, 105, 79, 105, 74, 73, 85, 122, 73, 49, 78,
   105, 73, 115, 73, 110, 82, 53, 99, 67, 73, 54, 73, 107, 112, 88, 86, 67,
   74, 57, 46, 101, 121, 74, 49, 99, 50, 86, 121, 83, 87, 81, 105, 79, 106,
   69, 115, 73, 110, 86, 122, 90, 88, 74, 117, 89, 87, 49, 108, 73, 106, 111,
   105, 89, 83, 73, 115, 73, 109, 108, 104, 100, 67, 73, 54, 78, 83, 119,
   105, 90, 88, 104, 119, 73, 106, 111, 120, 77, 68, 86, 57, 46, 100, 111,
   100, 104, 52, 104, 119, 73, 105, 90, 57, 119, 99, 120, 70, 73, 51, 76, 80,
   99, 51, 109, 79, 50, 83, 88, 85, 100, 104, 55, 49, 97, 49, 95, 119, 104,
   56, 55, 70, 45, 83, 114, 115]

/-- Result of the module-initialization check on `JWT_SECRET` at the top of
`src/lib/jwt.ts`: `process.exit(1)` (modelled as `fatalExit`) when the
environment value is falsy (absent or the empty string). -/
inductive JwtInitR
  | fatalExit
  | ok (secret : List Nat)
deriving DecidableEq, Repr

/-- The `if (!JWT_SECRET) process.exit(1)` startup guard. -/
def jwtInit : Option (List Nat) → JwtInitR
  | none => .fatalExit
  | some s => if s.isEmpty then .fatalExit else .ok s

/-! ### Data model and prepared queries (`src/db/index.ts`) -/

/-- Whitespace recognized by `String.prototype.trim` (ASCII range). -/
def isJsWs (c : Nat) : Bool := decide (c = 9 ∨ c = 10 ∨ c = 11 ∨ c = 12 ∨ c = 13 ∨ c = 32)

/-- Models `String.prototype.trim`. -/
def jsTrim (s : List Nat) : List Nat :=
  ((s.dropWhile isJsWs).reverse.dropWhile isJsWs).reverse

/-- The `status` column: `'draft'` or `'published'`. -/
inductive EssayStatus
  | draft
  | published
deriving DecidableEq, Repr

/-- A row of the `essays` table.  Timestamps are modelled as naturals ordered
as the SQLite text timestamps are. -/
structure Essay where
  id : Nat
  user_id : Nat
  title : List Nat
  content : List Nat
  status : EssayStatus
  created_at : Nat
  updated_at : Nat
deriving DecidableEq, Repr

/-- A row of the `users` table. -/
structure User where
  id : Nat
  username : List Nat
  password_hash : List Nat
  created_at : Nat
deriving DecidableEq, Repr

/-- The SQLite database: both tables plus their autoincrement counters. -/
structure Store where
  users : List User
  essays : List Essay
  nextUserId : Nat
  nextEssayId : Nat
deriving DecidableEq, Repr

/-- Models `userQueries.create`: INSERT with fresh autoincrement id, RETURNING the
row. -/
def userQueries.create (s : Store) (username passwordHash : List Nat)
    (now : Nat) : Option User × Store :=
  let u : User := ⟨s.nextUserId, username, passwordHash, now⟩
  (some u, { s with users := s.users ++ [u], nextUserId := s.nextUserId + 1 })

/-- Models `userQueries.findByUsername`. -/
def userQueries.findByUsername (s : Store) (username : List Nat) : Option User :=
  s.users.find? (fun u => u.username == username)

/-- Models `userQueries.findById`. -/
def userQueries.findById (s : Store) (id : Nat) : Option User :=
  s.users.find? (fun u => u.id == id)

/-- Models `essayQueries.create`: INSERT with status defaulting to draft, RETURNING
the row. -/
def essayQueries.create (s : Store) (userId : Nat) (title content : List Nat)
    (now : Nat) : Option Essay × Store :=
  let e : Essay := ⟨s.nextEssayId, userId, title, content, .draft, now, now⟩
  (some e, { s with essays := s.essays ++ [e], nextEssayId := s.nextEssayId + 1 })

/-- Models `essayQueries.findById`. -/
def essayQueries.findById (s : Store) (id : Nat) : Option Essay :=
  s.essays.find? (fun e => e.id == id)

/-- Comparison used to realize `ORDER BY updated_at DESC`. -/
def moreRecent (a b : Essay) : Bool := b.updated_at ≤ a.updated_at

/-- Models `essayQueries.findByUserId`: the caller's rows, most recently updated
first. -/
def essayQueries.findByUserId (s : Store) (userId : Nat) : List Essay :=
  (s.essays.filter (fun e => e.user_id == userId)).mergeSort moreRecent

/-- Models `essayQueries.findPublished`: published rows of any owner, most recently
updated first. -/
def essayQueries.findPublished (s : Store) : List Essay :=
  (s.essays.filter (fun e => e.status == .published)).mergeSort moreRecent

/-- The ownership-scoped `WHERE id = ? AND user_id = ?` predicate of the
mutating queries. -/
def ownedRow (id userId : Nat) (e : Essay) : Bool :=
  e.id == id && e.user_id == userId

/-- Models `essayQueries.update`: conditional UPDATE of title/content refreshing
`updated_at`, RETURNING the updated row (`none` when no row matched). -/
def essayQueries.update (s : Store) (title content : List Nat) (id userId : Nat)
    (now : Nat) : Option Essay × Store :=
  let upd := fun (e : Essay) =>
    { e with title := title, content := content, updated_at := now }
  ((s.essays.find? (ownedRow id userId)).map upd,
   { s with essays := s.essays.map (fun e => if ownedRow id userId e then upd e else e) })

/-- Models `essayQueries.updateStatus`: conditional UPDATE of status refreshing
`updated_at`, RETURNING the updated row. -/
def essayQueries.updateStatus (s : Store) (status : EssayStatus) (id userId : Nat)
    (now : Nat) : Option Essay × Store :=
  let upd := fun (e : Essay) => { e with status := status, updated_at := now }
  ((s.essays.find? (ownedRow id userId)).map upd,
   { s with essays := s.essays.map (fun e => if ownedRow id userId e then upd e else e) })

/-- Models `essayQueries.delete`: conditional DELETE. -/
def essayQueries.delete (s : Store) (id userId : Nat) : Store :=
  { s with essays := s.essays.filter (fun e => not (ownedRow id userId e)) }

/-! ### Essay handlers (`src/api/essays.ts`)

Handlers are modelled after the `id` path parameter has been parsed
(`parseInt`); the 400 response for a non-numeric id is transport-level
and outside every claim.  The authenticated caller's identity, the ambient
`MAX_ESSAY_LENGTH` configuration and the current timestamp are explicit
arguments. -/

/-- The distinct error bodies the handlers produce. -/
inductive ApiErr
  | essayNotFound
  | forbidden
  | titleRequired
  | contentRequired
  | contentTooLong
  | titleEmpty
  | createFailed
  | updateFailed
  | statusUpdateFailed
  | registrationDisabled
  | fieldsRequired
  | invalidUsername
  | weakPassword
  | usernameTaken
  | userCreateFailed
deriving DecidableEq, Repr

/-- The fallback author name of `user?.username || "Unknown"`. -/
def unknownAuthor : List Nat := [85, 110, 107, 110, 111, 119, 110]

/-- The `author` annotation added by `getEssay`/`getPublishedEssays`, exactly
`user?.username || "Unknown"`: a missing owner row, and equally a present
owner row with an empty (falsy) username, both annotate `Unknown`. -/
def authorOf (s : Store) (userId : Nat) : List Nat :=
  match userQueries.findById s userId with
  | some u => if u.username.isEmpty then unknownAuthor else u.username
  | none => unknownAuthor

/-- Result of `getEssay`: the essay with author annotation, or an error
response. -/
inductive GetEssayR
  | ok (essay : Essay) (author : List Nat)
  | err (status : Nat) (e : ApiErr)
deriving DecidableEq, Repr

/-- Models `getEssay`: optional-auth single-essay read; drafts respond 404 to anyone
but the owner. -/
def getEssay (s : Store) (callerId : Option Nat) (id : Nat) : GetEssayR :=
  match essayQueries.findById s id with
  | none => .err 404 .essayNotFound
  | some essay =>
    if essay.status == .draft && not (callerId == some essay.user_id) then
      .err 404 .essayNotFound
    else
      .ok essay (authorOf s essay.user_id)

/-- Models `getPublishedEssays`: public listing with author annotations. -/
def getPublishedEssays (s : Store) : List (Essay × List Nat) :=
  (essayQueries.findPublished s).map (fun e => (e, authorOf s e.user_id))

/-- Models `getUserEssays`: the authenticated caller's own listing. -/
def getUserEssays (s : Store) (userId : Nat) : List Essay :=
  essayQueries.findByUserId s userId

/-- Body of `POST /essays`; a JSON field that is absent is modelled by the
empty string, which the source treats identically (both falsy). -/
structure CreateReq where
  title : List Nat
  content : List Nat
deriving DecidableEq, Repr

/-- Result of `createEssay`. -/
inductive CreateEssayR
  | created (status : Nat) (essay : Essay)
  | err (status : Nat) (e : ApiErr)
deriving DecidableEq, Repr

/-- Models `createEssay`: validates title and content, inserts a draft owned by the
caller. -/
def createEssay (s : Store) (maxLen : Nat) (userId : Nat) (req : CreateReq)
    (now : Nat) : CreateEssayR × Store :=
  if req.title.isEmpty || (jsTrim req.title).isEmpty then
    (.err 400 .titleRequired, s)
  else if req.content.isEmpty then
    (.err 400 .contentRequired, s)
  else if req.content.length > maxLen then
    (.err 400 .contentTooLong, s)
  else
    match essayQueries.create s userId (jsTrim req.title) req.content now with
    | (some essay, s') => (.created 201 essay, s')
    | (none, s') => (.err 500 .createFailed, s')

/-- Body of `PUT /essays/:id`; both fields optional. -/
structure UpdateReq where
  title : Option (List Nat)
  content : Option (List Nat)
deriving DecidableEq, Repr

/-- Result of `updateEssay`. -/
inductive UpdateEssayR
  | updated (status : Nat) (essay : Essay)
  | err (status : Nat) (e : ApiErr)
deriving DecidableEq, Repr

/-- The `const title = body.title?.trim() || existing.title` expression of
`updateEssay`: an absent title, or one that trims to the empty (falsy)
string, falls back to the stored title. -/
def effectiveTitle (req : UpdateReq) (existing : Essay) : List Nat :=
  match req.title with
  | some t => if (jsTrim t).isEmpty then existing.title else jsTrim t
  | none => existing.title

/-- Models `updateEssay`: ownership check (404 when missing, 403 when another
user's), then `title = body.title?.trim() || existing.title` and
`content = body.content ?? existing.content` with validation. -/
def updateEssay (s : Store) (maxLen : Nat) (userId : Nat) (id : Nat)
    (req : UpdateReq) (now : Nat) : UpdateEssayR × Store :=
  match essayQueries.findById s id with
  | none => (.err 404 .essayNotFound, s)
  | some existing =>
    if not (existing.user_id == userId) then
      (.err 403 .forbidden, s)
    else
      let title := effectiveTitle req existing
      let content := req.content.getD existing.content
      if title.isEmpty then
        (.err 400 .titleEmpty, s)
      else if content.length > maxLen then
        (.err 400 .contentTooLong, s)
      else
        match essayQueries.update s title content id userId now with
        | (some essay, s') => (.updated 200 essay, s')
        | (none, s') => (.err 500 .updateFailed, s')

/-- Result of `deleteEssay`. -/
inductive DeleteEssayR
  | deleted (status : Nat)
  | err (status : Nat) (e : ApiErr)
deriving DecidableEq, Repr

/-- Models `deleteEssay`: ownership check, then conditional DELETE. -/
def deleteEssay (s : Store) (userId : Nat) (id : Nat) : DeleteEssayR × Store :=
  match essayQueries.findById s id with
  | none => (.err 404 .essayNotFound, s)
  | some existing =>
    if not (existing.user_id == userId) then
      (.err 403 .forbidden, s)
    else
      (.deleted 200, essayQueries.delete s id userId)

/-- Result of `publishEssay`/`unpublishEssay`. -/
inductive StatusEssayR
  | ok (status : Nat) (essay : Essay)
  | err (status : Nat) (e : ApiErr)
deriving DecidableEq, Repr

/-- Models `publishEssay`: ownership check, then unconditional status write to
`published`. -/
def publishEssay (s : Store) (userId : Nat) (id : Nat) (now : Nat) :
    StatusEssayR × Store :=
  match essayQueries.findById s id with
  | none => (.err 404 .essayNotFound, s)
  | some existing =>
    if not (existing.user_id == userId) then
      (.err 403 .forbidden, s)
    else
      match essayQueries.updateStatus s .published id userId now with
      | (some essay, s') => (.ok 200 essay, s')
      | (none, s') => (.err 500 .statusUpdateFailed, s')

/-- Models `unpublishEssay`: ownership check, then unconditional status write to
`draft`. -/
def unpublishEssay (s : Store) (userId : Nat) (id : Nat) (now : Nat) :
    StatusEssayR × Store :=
  match essayQueries.findById s id with
  | none => (.err 404 .essayNotFound, s)
  | some existing =>
    if not (existing.user_id == userId) then
      (.err 403 .forbidden, s)
    else
      match essayQueries.updateStatus s .draft id userId now with
      | (some essay, s') => (.ok 200 essay, s')
      | (none, s') => (.err 500 .statusUpdateFailed, s')

/-! ### Registration (`src/api/auth.ts`) -/

/-- Models `^[a-zA-Z0-9_]$` character class. -/
def isNameChar (c : Nat) : Bool :=
  decide ((65 ≤ c ∧ c ≤ 90) ∨ (97 ≤ c ∧ c ≤ 122) ∨ (48 ≤ c ∧ c ≤ 57) ∨ c = 95)

/-- Models `isValidUsername`: the regex `^[a-zA-Z0-9_]{3,20}$`. -/
def isValidUsername (u : List Nat) : Bool :=
  decide (3 ≤ u.length ∧ u.length ≤ 20) && u.all isNameChar

/-- Models `isValidPassword`: minimum length 6. -/
def isValidPassword (p : List Nat) : Bool := decide (6 ≤ p.length)

/-- Body of `POST /auth/register`; an absent JSON field is modelled by the
empty string, which the `!username || !password` guard treats identically. -/
structure RegisterReq where
  username : List Nat
  password : List Nat
deriving DecidableEq, Repr

/-- Result of `register`. -/
inductive RegisterR
  | success (status : Nat) (token : List Nat) (userId : Nat) (username : List Nat)
  | err (status : Nat) (e : ApiErr)
deriving DecidableEq, Repr

/-- Models `register`: feature-flag gate first, then missing-field, username-pattern,
password-length and duplicate checks, then account creation and token
issuance.  `hash` abstracts the external `Bun.password.hash` argon2id
primitive; `secret`/`expiry`/`now` feed the token service. -/
def register (registrationEnabled : Bool) (hash : List Nat → List Nat)
    (secret : List Nat) (expiry : Nat) (now : Nat) (s : Store)
    (req : RegisterReq) : RegisterR × Store :=
  if not registrationEnabled then
    (.err 403 .registrationDisabled, s)
  else if req.username.isEmpty || req.password.isEmpty then
    (.err 400 .fieldsRequired, s)
  else if not (isValidUsername req.username) then
    (.err 400 .invalidUsername, s)
  else if not (isValidPassword req.password) then
    (.err 400 .weakPassword, s)
  else
    match userQueries.findByUsername s req.username with
    | some _ => (.err 409 .usernameTaken, s)
    | none =>
      match userQueries.create s req.username (hash req.password) now with
      | (some user, s') =>
        (.success 200 (createToken secret expiry user.id user.username now)
          user.id user.username, s')
      | (none, s') => (.err 500 .userCreateFailed, s')

/-! ### Helper lemmas about the queries -/

/-- A row found by id whose owner matches is also the row found by the
ownership-scoped predicate: earlier rows already fail the id test. -/
theorem find?_ownedRow_of_find?_id {id uid : Nat} (l : List Essay) (e : Essay)
    (h : l.find? (fun x => x.id == id) = some e) (hu : e.user_id = uid) :
    l.find? (ownedRow id uid) = some e := by
  induction l with
  | nil => simp at h
  | cons a t ih =>
    by_cases ha : (a.id == id) = true
    · simp only [List.find?_cons, ha] at h
      have hae : a = e := by simpa using h
      subst hae
      simp [List.find?_cons, ownedRow, ha, hu]
    · have ha' : (a.id == id) = false := by simpa using ha
      simp only [List.find?_cons, ha'] at h
      simp only [List.find?_cons, ownedRow, ha', Bool.false_and]
      exact ih h

/-- Searching by id commutes with an id-preserving row transformation. -/
theorem find?_id_map {id : Nat} (l : List Essay) (g : Essay → Essay)
    (hid : ∀ x, (g x).id = x.id) :
    (l.map g).find? (fun x => x.id == id) =
      (l.find? (fun x => x.id == id)).map g := by
  induction l with
  | nil => simp
  | cons a t ih =>
    by_cases ha : (a.id == id) = true
    · have hga : ((g a).id == id) = true := by rw [hid]; exact ha
      simp [List.find?_cons, ha, hga]
    · have ha' : (a.id == id) = false := by simpa using ha
      have hga : ((g a).id == id) = false := by rw [hid]; exact ha'
      simp only [List.map_cons, List.find?_cons, ha', hga]
      exact ih

/-- After an ownership-scoped status update, reading the row back by id gives
the updated row. -/
theorem findById_after_updateStatus (s : Store) (st : EssayStatus)
    (id uid now : Nat) (e : Essay)
    (hfind : essayQueries.findById s id = some e) (hown : e.user_id = uid) :
    essayQueries.findById (essayQueries.updateStatus s st id uid now).2 id =
      some { e with status := st, updated_at := now } := by
  have howned := find?_ownedRow_of_find?_id s.essays e hfind hown
  have he : ownedRow id uid e = true := List.find?_some howned
  unfold essayQueries.findById at hfind ⊢
  simp only [essayQueries.updateStatus]
  rw [find?_id_map _ _
    (fun x => by by_cases hx : ownedRow id uid x = true <;> simp [hx])]
  rw [hfind]
  simp [he]

/-! ### Claims about the essay handlers -/

/-- C1: a read of an existing document by a caller who is not the owner
(including the anonymous caller) yields the document with its author
annotation iff the document is published, and yields a 404 (never a 403)
iff it is a draft; the owner's read succeeds for both statuses, and every
error `getEssay` produces carries status 404. -/
theorem getEssay_read_visibility (s : Store) (id : Nat) (e : Essay)
    (caller : Option Nat)
    (hfind : essayQueries.findById s id = some e) :
    ((∀ u, caller = some u → u ≠ e.user_id) →
       ((getEssay s caller id = GetEssayR.ok e (authorOf s e.user_id) ↔
           e.status = .published) ∧
        (getEssay s caller id = GetEssayR.err 404 .essayNotFound ↔
           e.status = .draft))) ∧
    (caller = some e.user_id →
       getEssay s caller id = GetEssayR.ok e (authorOf s e.user_id)) ∧
    (∀ st er, getEssay s caller id = GetEssayR.err st er → st = 404) := by
  refine ⟨?_, ?_, ?_⟩
  · intro hno
    have hcb : (caller == some e.user_id) = false := by
      cases caller with
      | none => rfl
      | some u => simpa using hno u rfl
    cases hst : e.status with
    | draft => simp [getEssay, hfind, hcb, hst]
    | published => simp [getEssay, hfind, hcb, hst]
  · intro hc
    subst hc
    cases hst : e.status with
    | draft => simp [getEssay, hfind, hst]
    | published => simp [getEssay, hfind, hst]
  · intro st er h
    by_cases hcond :
        (e.status == EssayStatus.draft && !(caller == some e.user_id)) = true
    · simp [getEssay, hfind, hcond] at h
      obtain ⟨h1, -⟩ := h
      omega
    · simp [getEssay, hfind, hcond] at h

/-- C1 witness: concrete store where an anonymous read of a published essay
succeeds and of a draft essay is a 404. -/
theorem getEssay_read_visibility_witness :
    (getEssay ⟨[⟨1, [97], [104], 0⟩],
        [⟨5, 1, [84], [67], .published, 0, 0⟩], 2, 6⟩ none 5 =
      GetEssayR.ok ⟨5, 1, [84], [67], .published, 0, 0⟩ [97] ↔
        EssayStatus.published = .published) ∧
    (getEssay ⟨[⟨1, [97], [104], 0⟩],
        [⟨5, 1, [84], [67], .published, 0, 0⟩], 2, 6⟩ none 5 =
      GetEssayR.err 404 .essayNotFound ↔ EssayStatus.published = .draft) := by
  have h := getEssay_read_visibility
    ⟨[⟨1, [97], [104], 0⟩], [⟨5, 1, [84], [67], .published, 0, 0⟩], 2, 6⟩
    5 ⟨5, 1, [84], [67], .published, 0, 0⟩ none (by decide)
  have h2 := h.1 (by intro u hu; exact Option.noConfusion hu)
  have : authorOf ⟨[⟨1, [97], [104], 0⟩],
      [⟨5, 1, [84], [67], .published, 0, 0⟩], 2, 6⟩ 1 = [97] := by decide
  exact ⟨by rw [← this]; exact h2.1, by rw [← this]; exact h2.2⟩

/-- C2: each of update, delete, publish and unpublish invoked by an
authenticated caller who is not the owner answers 403 when the target exists
and 404 when it does not, leaving the store untouched in both cases. -/
theorem nonOwner_mutations_rejected (s : Store) (maxLen uid id : Nat)
    (req : UpdateReq) (now : Nat) :
    ((∀ e, essayQueries.findById s id = some e → e.user_id ≠ uid →
        updateEssay s maxLen uid id req now = (.err 403 .forbidden, s) ∧
        deleteEssay s uid id = (.err 403 .forbidden, s) ∧
        publishEssay s uid id now = (.err 403 .forbidden, s) ∧
        unpublishEssay s uid id now = (.err 403 .forbidden, s)) ∧
     (essayQueries.findById s id = none →
        updateEssay s maxLen uid id req now = (.err 404 .essayNotFound, s) ∧
        deleteEssay s uid id = (.err 404 .essayNotFound, s) ∧
        publishEssay s uid id now = (.err 404 .essayNotFound, s) ∧
        unpublishEssay s uid id now = (.err 404 .essayNotFound, s))) := by
  constructor
  · intro e he hne
    have hb : (e.user_id == uid) = false := by simpa using hne
    refine ⟨?_, ?_, ?_, ?_⟩ <;>
      simp [updateEssay, deleteEssay, publishEssay, unpublishEssay, he, hb]
  · intro he
    refine ⟨?_, ?_, ?_, ?_⟩ <;>
      simp [updateEssay, deleteEssay, publishEssay, unpublishEssay, he]

/-- C2 witness: concrete rejections for caller 2 against an essay owned by
user 1 and against an absent id. -/
theorem nonOwner_mutations_rejected_witness :
    updateEssay ⟨[], [⟨5, 1, [84], [67], .draft, 0, 0⟩], 1, 6⟩ 10 2 5
        ⟨none, none⟩ 3 =
      (.err 403 .forbidden, ⟨[], [⟨5, 1, [84], [67], .draft, 0, 0⟩], 1, 6⟩) ∧
    deleteEssay ⟨[], [⟨5, 1, [84], [67], .draft, 0, 0⟩], 1, 6⟩ 2 9 =
      (.err 404 .essayNotFound, ⟨[], [⟨5, 1, [84], [67], .draft, 0, 0⟩], 1, 6⟩) := by
  have h := nonOwner_mutations_rejected
    ⟨[], [⟨5, 1, [84], [67], .draft, 0, 0⟩], 1, 6⟩ 10 2 5 ⟨none, none⟩ 3
  have h9 := nonOwner_mutations_rejected
    ⟨[], [⟨5, 1, [84], [67], .draft, 0, 0⟩], 1, 6⟩ 10 2 9 ⟨none, none⟩ 3
  exact ⟨(h.1 ⟨5, 1, [84], [67], .draft, 0, 0⟩ (by decide) (by decide)).1,
         (h9.2 (by decide)).2.1⟩

/-- C6: publishing an already-published document (as its owner) succeeds with
200 and the stored status stays published, and unpublishing an already-draft
document succeeds with 200 and the stored status stays draft; neither
operation has an "already in this state" rejection. -/
theorem publish_unpublish_idempotent (s : Store) (uid id now : Nat) (e : Essay)
    (hfind : essayQueries.findById s id = some e) (hown : e.user_id = uid) :
    (e.status = .published →
       (publishEssay s uid id now).1 =
         .ok 200 { e with status := .published, updated_at := now } ∧
       essayQueries.findById (publishEssay s uid id now).2 id =
         some { e with status := .published, updated_at := now }) ∧
    (e.status = .draft →
       (unpublishEssay s uid id now).1 =
         .ok 200 { e with status := .draft, updated_at := now } ∧
       essayQueries.findById (unpublishEssay s uid id now).2 id =
         some { e with status := .draft, updated_at := now }) := by
  have hb : (e.user_id == uid) = true := by simpa using hown
  have howned := find?_ownedRow_of_find?_id s.essays e hfind hown
  constructor
  · intro _
    refine ⟨?_, ?_⟩
    · simp [publishEssay, hfind, hb, essayQueries.updateStatus, howned]
    · have hstore : (publishEssay s uid id now).2 =
          (essayQueries.updateStatus s .published id uid now).2 := by
        simp [publishEssay, hfind, hb, essayQueries.updateStatus, howned]
      rw [hstore]
      exact findById_after_updateStatus s .published id uid now e hfind hown
  · intro _
    refine ⟨?_, ?_⟩
    · simp [unpublishEssay, hfind, hb, essayQueries.updateStatus, howned]
    · have hstore : (unpublishEssay s uid id now).2 =
          (essayQueries.updateStatus s .draft id uid now).2 := by
        simp [unpublishEssay, hfind, hb, essayQueries.updateStatus, howned]
      rw [hstore]
      exact findById_after_updateStatus s .draft id uid now e hfind hown

/-- C6 witness: concrete idempotent publish of an already published essay and
unpublish of an already draft essay. -/
theorem publish_unpublish_idempotent_witness :
    (publishEssay ⟨[], [⟨5, 1, [84], [67], .published, 0, 0⟩], 1, 6⟩ 1 5 7).1 =
      .ok 200 ⟨5, 1, [84], [67], .published, 0, 7⟩ ∧
    (unpublishEssay ⟨[], [⟨5, 1, [84], [67], .draft, 0, 0⟩], 1, 6⟩ 1 5 7).1 =
      .ok 200 ⟨5, 1, [84], [67], .draft, 0, 7⟩ := by
  have hp := publish_unpublish_idempotent
    ⟨[], [⟨5, 1, [84], [67], .published, 0, 0⟩], 1, 6⟩ 1 5 7
    ⟨5, 1, [84], [67], .published, 0, 0⟩ (by decide) (by decide)
  have hd := publish_unpublish_idempotent
    ⟨[], [⟨5, 1, [84], [67], .draft, 0, 0⟩], 1, 6⟩ 1 5 7
    ⟨5, 1, [84], [67], .draft, 0, 0⟩ (by decide) (by decide)
  exact ⟨(hp.1 rfl).1, (hd.2 rfl).1⟩

/-- C7: for an authenticated create with a title that survives trimming,
content of exactly the configured maximum length is accepted with 201 and the
draft is stored; content one character over the maximum is rejected with 400;
and any request whose title trims to the empty string is rejected with 400. -/
theorem createEssay_boundaries (s : Store) (maxLen uid now : Nat)
    (req : CreateReq) (hmax : 0 < maxLen) (htitle : jsTrim req.title ≠ []) :
    (req.content.length = maxLen →
       (createEssay s maxLen uid req now).1 = .created 201
         ⟨s.nextEssayId, uid, jsTrim req.title, req.content, .draft, now, now⟩) ∧
    (req.content.length = maxLen + 1 →
       (createEssay s maxLen uid req now).1 = .err 400 .contentTooLong) ∧
    (∀ req' : CreateReq, jsTrim req'.title = [] →
       (createEssay s maxLen uid req' now).1 = .err 400 .titleRequired) := by
  have h1 : req.title.isEmpty = false := by
    cases h : req.title with
    | nil => exact absurd (by rw [h]; rfl) htitle
    | cons a l => simp [h]
  have h2 : (jsTrim req.title).isEmpty = false := by
    cases h : jsTrim req.title with
    | nil => exact absurd h htitle
    | cons a l => simp
  refine ⟨?_, ?_, ?_⟩
  · intro hlen
    have hc : req.content.isEmpty = false := by
      cases h : req.content with
      | nil => rw [h] at hlen; simp at hlen; omega
      | cons a l => simp
    simp [createEssay, h1, h2, hc, hlen, essayQueries.create]
  · intro hlen
    have hc : req.content.isEmpty = false := by
      cases h : req.content with
      | nil => rw [h] at hlen; simp at hlen
      | cons a l => simp
    simp [createEssay, h1, h2, hc, hlen]
  · intro req' h
    have : (jsTrim req'.title).isEmpty = true := by simp [h]
    simp [createEssay, this]

/-- C7 witness: with maximum 3, content of length 3 is created as a draft,
and an all-whitespace title is a 400. -/
theorem createEssay_boundaries_witness :
    (createEssay ⟨[], [], 1, 1⟩ 3 1 ⟨[84], [65, 66, 67]⟩ 9).1 =
      .created 201 ⟨1, 1, [84], [65, 66, 67], .draft, 9, 9⟩ ∧
    (createEssay ⟨[], [], 1, 1⟩ 3 1 ⟨[32], [65]⟩ 9).1 = .err 400 .titleRequired := by
  have h := createEssay_boundaries ⟨[], [], 1, 1⟩ 3 1 9 ⟨[84], [65, 66, 67]⟩
    (by decide) (by decide)
  exact ⟨h.1 (by decide), h.2.2 ⟨[32], [65]⟩ (by decide)⟩

/-! ### Whitespace-trimming lemmas for C10 -/

/-- A non-whitespace member survives `dropWhile`. -/
theorem mem_dropWhile_of_not {p : Nat → Bool} {c : Nat} {l : List Nat}
    (hc : c ∈ l) (hp : p c = false) : c ∈ l.dropWhile p := by
  induction l with
  | nil => cases hc
  | cons a t ih =>
    by_cases ha : p a = true
    · rw [List.dropWhile_cons_of_pos ha]
      rcases List.mem_cons.mp hc with rfl | hm
      · rw [ha] at hp; cases hp
      · exact ih hm
    · rw [List.dropWhile_cons_of_neg ha]
      exact hc

/-- A non-whitespace member survives trimming. -/
theorem mem_jsTrim_of_not_ws {c : Nat} {l : List Nat}
    (hc : c ∈ l) (hp : isJsWs c = false) : c ∈ jsTrim l := by
  unfold jsTrim
  rw [List.mem_reverse]
  apply mem_dropWhile_of_not _ hp
  rw [List.mem_reverse]
  exact mem_dropWhile_of_not hc hp

/-- Trimming yields the empty string exactly when every character is
whitespace. -/
theorem jsTrim_eq_nil_iff (l : List Nat) :
    jsTrim l = [] ↔ ∀ c ∈ l, isJsWs c = true := by
  constructor
  · intro h c hc
    by_contra hw
    have hw' : isJsWs c = false := by simpa using hw
    have := mem_jsTrim_of_not_ws hc hw'
    rw [h] at this
    cases this
  · intro h
    unfold jsTrim
    rw [List.dropWhile_eq_nil_iff.mpr (fun x hx => h x hx)]
    rfl

/-- A string with a trimmed-nonempty content keeps it after another trim. -/
theorem jsTrim_jsTrim_ne_nil {t : List Nat} (h : jsTrim t ≠ []) :
    jsTrim (jsTrim t) ≠ [] := by
  have hex : ¬ ∀ c ∈ t, isJsWs c = true := fun hall =>
    h ((jsTrim_eq_nil_iff t).mpr hall)
  push_neg at hex
  obtain ⟨c, hc, hw⟩ := hex
  have hw' : isJsWs c = false := by simpa using hw
  intro hnil
  have := (jsTrim_eq_nil_iff (jsTrim t)).mp hnil c (mem_jsTrim_of_not_ws hc hw')
  rw [hw'] at this
  cases this

/-- After an ownership-scoped title/content update, reading the row back by id
gives the updated row. -/
theorem findById_after_update (s : Store) (title content : List Nat)
    (id uid now : Nat) (e : Essay)
    (hfind : essayQueries.findById s id = some e) (hown : e.user_id = uid) :
    essayQueries.findById (essayQueries.update s title content id uid now).2 id =
      some { e with title := title, content := content, updated_at := now } := by
  have howned := find?_ownedRow_of_find?_id s.essays e hfind hown
  have he : ownedRow id uid e = true := List.find?_some howned
  unfold essayQueries.findById at hfind ⊢
  simp only [essayQueries.update]
  rw [find?_id_map _ _
    (fun x => by by_cases hx : ownedRow id uid x = true <;> simp [hx])]
  rw [hfind]
  simp [he]

/-- The fallback of `title?.trim() || existing.title` preserves having a
trimmed-nonempty title. -/
theorem jsTrim_effectiveTitle_ne_nil (req : UpdateReq) (e : Essay)
    (h : jsTrim e.title ≠ []) : jsTrim (effectiveTitle req e) ≠ [] := by
  unfold effectiveTitle
  rcases hq : req.title with _ | t
  · exact h
  · by_cases hemp : (jsTrim t).isEmpty = true
    · simpa [hemp] using h
    · have hne : jsTrim t ≠ [] := by
        intro hx
        rw [hx] at hemp
        exact hemp rfl
      simpa [hemp] using jsTrim_jsTrim_ne_nil hne

/-- The store an owner's `updateEssay` leaves behind is either untouched (a
validation failure) or the one produced by the conditional UPDATE. -/
theorem updateEssay_store_shape (s : Store) (maxLen uid id now : Nat)
    (req : UpdateReq) (e : Essay)
    (hfind : essayQueries.findById s id = some e) (hown : e.user_id = uid) :
    (updateEssay s maxLen uid id req now).2 = s ∨
    (updateEssay s maxLen uid id req now).2 =
      (essayQueries.update s (effectiveTitle req e)
        (req.content.getD e.content) id uid now).2 := by
  have hb : (e.user_id == uid) = true := by simpa using hown
  by_cases hT : (effectiveTitle req e).isEmpty = true
  · left
    simp [updateEssay, hfind, hb, hT]
  · have hT' : (effectiveTitle req e).isEmpty = false := by simpa using hT
    by_cases hC : (req.content.getD e.content).length > maxLen
    · left
      simp [updateEssay, hfind, hb, hT', hC]
    · right
      simp [updateEssay, hfind, hb, hT', hC, essayQueries.update,
        find?_ownedRow_of_find?_id s.essays e hfind hown]

/-- An owner's `updateEssay` that passes validation returns 200 with the
updated row and commits the conditional UPDATE. -/
theorem updateEssay_success_shape (s : Store) (maxLen uid id now : Nat)
    (req : UpdateReq) (e : Essay)
    (hfind : essayQueries.findById s id = some e) (hown : e.user_id = uid)
    (hT : (effectiveTitle req e).isEmpty = false)
    (hC : ¬ (req.content.getD e.content).length > maxLen) :
    updateEssay s maxLen uid id req now =
      (UpdateEssayR.updated 200
        { e with
          title := effectiveTitle req e
          content := req.content.getD e.content
          updated_at := now },
       (essayQueries.update s (effectiveTitle req e)
          (req.content.getD e.content) id uid now).2) := by
  have hb : (e.user_id == uid) = true := by simpa using hown
  simp [updateEssay, hfind, hb, hT, hC, essayQueries.update,
    find?_ownedRow_of_find?_id s.essays e hfind hown]

/-- C10: an owner's update whose title is absent or trims to the empty string
succeeds with 200 and keeps the stored title unchanged (no 400), and every
update by the owner leaves the stored title nonempty after trimming whenever
it was before. -/
theorem updateEssay_title_fallback (s : Store) (maxLen uid id now : Nat)
    (req : UpdateReq) (e : Essay)
    (hfind : essayQueries.findById s id = some e) (hown : e.user_id = uid)
    (htitle : req.title = none ∨ ∃ t, req.title = some t ∧ jsTrim t = [])
    (hne : e.title ≠ [])
    (hclen : (req.content.getD e.content).length ≤ maxLen) :
    ((updateEssay s maxLen uid id req now).1 = .updated 200
       { e with content := req.content.getD e.content, updated_at := now } ∧
     essayQueries.findById (updateEssay s maxLen uid id req now).2 id = some
       { e with content := req.content.getD e.content, updated_at := now }) ∧
    (∀ req' : UpdateReq, jsTrim e.title ≠ [] →
       ∀ e', essayQueries.findById (updateEssay s maxLen uid id req' now).2 id =
           some e' → jsTrim e'.title ≠ []) := by
  have hteq : effectiveTitle req e = e.title := by
    rcases htitle with h | ⟨t, ht, htr⟩
    · simp [effectiveTitle, h]
    · simp [effectiveTitle, ht, htr]
  have hnemp : e.title.isEmpty = false := by
    cases h : e.title with
    | nil => exact absurd h hne
    | cons a l => simp
  have hT : (effectiveTitle req e).isEmpty = false := by rw [hteq]; exact hnemp
  have hC : ¬ (req.content.getD e.content).length > maxLen := by omega
  have hsucc := updateEssay_success_shape s maxLen uid id now req e
    hfind hown hT hC
  rw [hteq] at hsucc
  constructor
  · constructor
    · rw [hsucc]
    · rw [hsucc]
      exact findById_after_update s e.title (req.content.getD e.content)
        id uid now e hfind hown
  · intro req' htrim e' hfind'
    rcases updateEssay_store_shape s maxLen uid id now req' e hfind hown
      with hs | hs
    · rw [hs, hfind] at hfind'
      injection hfind' with h
      rw [← h]
      exact htrim
    · rw [hs, findById_after_update s (effectiveTitle req' e)
        (req'.content.getD e.content) id uid now e hfind hown] at hfind'
      injection hfind' with h
      rw [← h]
      exact jsTrim_effectiveTitle_ne_nil req' e htrim

/-- C10 witness: an owner update with an all-whitespace title keeps the stored
title and succeeds with 200. -/
theorem updateEssay_title_fallback_witness :
    (updateEssay ⟨[], [⟨5, 1, [84], [67], .draft, 0, 0⟩], 1, 6⟩ 10 1 5
        ⟨some [32, 32], some [68]⟩ 7).1 =
      .updated 200 ⟨5, 1, [84], [68], .draft, 0, 7⟩ := by
  have h := updateEssay_title_fallback
    ⟨[], [⟨5, 1, [84], [67], .draft, 0, 0⟩], 1, 6⟩ 10 1 5 7
    ⟨some [32, 32], some [68]⟩ ⟨5, 1, [84], [67], .draft, 0, 0⟩
    (by decide) (by decide) (Or.inr ⟨[32, 32], rfl, by decide⟩)
    (by decide) (by decide)
  exact h.1.1

/-- The `ORDER BY updated_at DESC` comparison is transitive. -/
theorem moreRecent_trans (a b c : Essay) :
    moreRecent a b → moreRecent b c → moreRecent a c := by
  simp only [moreRecent, decide_eq_true_eq]
  omega

/-- The `ORDER BY updated_at DESC` comparison is total. -/
theorem moreRecent_total (a b : Essay) : moreRecent a b || moreRecent b a := by
  simp only [moreRecent, Bool.or_eq_true, decide_eq_true_eq]
  omega

/-- C8: the authenticated "my documents" listing is exactly the caller's rows
of either status in most-recently-updated-first order, and the public listing
is exactly the published rows of all owners in the same order, each annotated
with the owning account's username.  The nonempty-username hypothesis of the
annotation clause marks the model boundary where the `|| "Unknown"` fallback
would fire instead: the registration validator admits only usernames of 3-20
characters, so every account this system creates satisfies it. -/
theorem listings_scoped_and_sorted (s : Store) (uid : Nat) :
    (List.Perm (getUserEssays s uid)
        (s.essays.filter (fun e => e.user_id == uid)) ∧
     (getUserEssays s uid).Pairwise (fun a b => b.updated_at ≤ a.updated_at)) ∧
    (List.Perm ((getPublishedEssays s).map Prod.fst)
        (s.essays.filter (fun e => e.status == .published)) ∧
     (getPublishedEssays s).Pairwise
        (fun a b => b.1.updated_at ≤ a.1.updated_at) ∧
     (∀ p ∈ getPublishedEssays s, ∀ u,
        userQueries.findById s p.1.user_id = some u → u.username ≠ [] →
          p.2 = u.username)) := by
  refine ⟨⟨?_, ?_⟩, ?_, ?_, ?_⟩
  · exact List.mergeSort_perm _ _
  · exact List.Pairwise.imp
      (by intro a b hab; simpa [moreRecent] using hab)
      (List.sorted_mergeSort
        (fun a b c => moreRecent_trans a b c) moreRecent_total _)
  · have hmap : (getPublishedEssays s).map Prod.fst =
        essayQueries.findPublished s := by
      simp [getPublishedEssays, Function.comp_def]
    rw [hmap]
    exact List.mergeSort_perm _ _
  · have h := List.Pairwise.imp
      (by intro a b hab; simpa [moreRecent] using hab)
      (List.sorted_mergeSort
        (fun a b c => moreRecent_trans a b c) moreRecent_total
        (s.essays.filter (fun e => e.status == .published)))
    exact (List.pairwise_map).mpr h
  · intro p hp u hu hne
    simp only [getPublishedEssays, List.mem_map] at hp
    obtain ⟨e, _, rfl⟩ := hp
    have hemp : u.username.isEmpty = false := by
      cases hx : u.username with
      | nil => exact absurd hx hne
      | cons a l => simp
    simp [authorOf, hu, hemp]

/-- C8 witness: the two listings of a concrete two-user store. -/
theorem listings_scoped_and_sorted_witness :
    List.Perm (getUserEssays ⟨[⟨1, [97], [104], 0⟩, ⟨2, [98], [104], 0⟩],
        [⟨5, 1, [84], [67], .draft, 0, 3⟩, ⟨6, 2, [85], [68], .published, 0, 4⟩],
        3, 7⟩ 1)
      ([⟨5, 1, [84], [67], .draft, 0, 3⟩, ⟨6, 2, [85], [68], .published, 0, 4⟩].filter
        (fun e => e.user_id == 1)) ∧
    (∀ p ∈ getPublishedEssays ⟨[⟨1, [97], [104], 0⟩, ⟨2, [98], [104], 0⟩],
        [⟨5, 1, [84], [67], .draft, 0, 3⟩, ⟨6, 2, [85], [68], .published, 0, 4⟩],
        3, 7⟩, ∀ u,
      userQueries.findById ⟨[⟨1, [97], [104], 0⟩, ⟨2, [98], [104], 0⟩],
        [⟨5, 1, [84], [67], .draft, 0, 3⟩, ⟨6, 2, [85], [68], .published, 0, 4⟩],
        3, 7⟩ p.1.user_id = some u → u.username ≠ [] → p.2 = u.username) := by
  have h := listings_scoped_and_sorted
    ⟨[⟨1, [97], [104], 0⟩, ⟨2, [98], [104], 0⟩],
     [⟨5, 1, [84], [67], .draft, 0, 3⟩, ⟨6, 2, [85], [68], .published, 0, 4⟩],
     3, 7⟩ 1
  exact ⟨h.1.1, h.2.2.2⟩

/-! ### Claims about registration and startup -/

/-- C5 counterexample: a register request with an empty (or absent) username
and a valid password answers 400 with the missing-fields error body, not the
400 InvalidName outcome the claim assigns to every username failing the
pattern — even though the empty username does fail the pattern. -/
theorem register_empty_username_not_invalidName :
    (register true (fun p => p) [115] 10 0 ⟨[], [], 1, 1⟩
        ⟨[], [115, 101, 99, 114, 101, 116, 49]⟩).1 =
      RegisterR.err 400 .fieldsRequired ∧
    isValidUsername [] = false ∧
    ApiErr.fieldsRequired ≠ ApiErr.invalidUsername := by
  refine ⟨by decide, by decide, by decide⟩

/-- C5 (amended): the registration flag is checked first and disables the
endpoint with 403 regardless of input; otherwise an empty username or
password answers 400 missing-fields; then a nonempty username failing the
3-20 letters/digits/underscore pattern answers 400 InvalidName; then a
password shorter than 6 characters answers 400 WeakPassword; then a taken
username answers 409; and any remaining pair creates the account and returns
a token for it. -/
theorem register_decision_ladder (enabled : Bool) (hash : List Nat → List Nat)
    (secret : List Nat) (expiry now : Nat) (s : Store) (req : RegisterReq) :
    (enabled = false →
       register enabled hash secret expiry now s req =
         (.err 403 .registrationDisabled, s)) ∧
    (enabled = true → (req.username = [] ∨ req.password = []) →
       register enabled hash secret expiry now s req =
         (.err 400 .fieldsRequired, s)) ∧
    (enabled = true → req.username ≠ [] → req.password ≠ [] →
       isValidUsername req.username = false →
       register enabled hash secret expiry now s req =
         (.err 400 .invalidUsername, s)) ∧
    (enabled = true → req.username ≠ [] → req.password ≠ [] →
       isValidUsername req.username = true →
       isValidPassword req.password = false →
       register enabled hash secret expiry now s req =
         (.err 400 .weakPassword, s)) ∧
    (enabled = true → req.username ≠ [] → req.password ≠ [] →
       isValidUsername req.username = true →
       isValidPassword req.password = true →
       ∀ u, userQueries.findByUsername s req.username = some u →
       register enabled hash secret expiry now s req =
         (.err 409 .usernameTaken, s)) ∧
    (enabled = true → req.username ≠ [] → req.password ≠ [] →
       isValidUsername req.username = true →
       isValidPassword req.password = true →
       userQueries.findByUsername s req.username = none →
       register enabled hash secret expiry now s req =
         (.success 200
            (createToken secret expiry s.nextUserId req.username now)
            s.nextUserId req.username,
          { s with
            users := s.users ++ [⟨s.nextUserId, req.username, hash req.password, now⟩]
            nextUserId := s.nextUserId + 1 })) := by
  refine ⟨?_, ?_, ?_, ?_, ?_, ?_⟩
  · intro h
    simp [register, h]
  · intro h hup
    have h1 : (req.username.isEmpty || req.password.isEmpty) = true := by
      rcases hup with hu | hp
      · simp [hu]
      · simp [hp]
    simp [register, h, h1]
  · intro h hu hp hv
    have h1 : req.username.isEmpty = false := by
      cases hx : req.username with
      | nil => exact absurd hx hu
      | cons a l => simp
    have h2 : req.password.isEmpty = false := by
      cases hx : req.password with
      | nil => exact absurd hx hp
      | cons a l => simp
    simp [register, h, h1, h2, hv]
  · intro h hu hp hv hw
    have h1 : req.username.isEmpty = false := by
      cases hx : req.username with
      | nil => exact absurd hx hu
      | cons a l => simp
    have h2 : req.password.isEmpty = false := by
      cases hx : req.password with
      | nil => exact absurd hx hp
      | cons a l => simp
    simp [register, h, h1, h2, hv, hw]
  · intro h hu hp hv hw u hfound
    have h1 : req.username.isEmpty = false := by
      cases hx : req.username with
      | nil => exact absurd hx hu
      | cons a l => simp
    have h2 : req.password.isEmpty = false := by
      cases hx : req.password with
      | nil => exact absurd hx hp
      | cons a l => simp
    simp [register, h, h1, h2, hv, hw, hfound]
  · intro h hu hp hv hw hfree
    have h1 : req.username.isEmpty = false := by
      cases hx : req.username with
      | nil => exact absurd hx hu
      | cons a l => simp
    have h2 : req.password.isEmpty = false := by
      cases hx : req.password with
      | nil => exact absurd hx hp
      | cons a l => simp
    simp [register, h, h1, h2, hv, hw, hfree, userQueries.create]

/-- C5 witness: a concrete successful registration and a concrete
disabled-flag rejection obtained from the decision ladder. -/
theorem register_decision_ladder_witness :
    register true (fun p => p) [115] 10 0 ⟨[], [], 1, 1⟩
        ⟨[97, 108, 105], [115, 101, 99, 114, 101, 116, 49]⟩ =
      (.success 200 (createToken [115] 10 1 [97, 108, 105] 0) 1 [97, 108, 105],
       ⟨[⟨1, [97, 108, 105], [115, 101, 99, 114, 101, 116, 49], 0⟩], [], 2, 1⟩) ∧
    register false (fun p => p) [115] 10 0 ⟨[], [], 1, 1⟩
        ⟨[97, 108, 105], [115, 101, 99, 114, 101, 116, 49]⟩ =
      (.err 403 .registrationDisabled, ⟨[], [], 1, 1⟩) := by
  constructor
  · exact (register_decision_ladder true (fun p => p) [115] 10 0 ⟨[], [], 1, 1⟩
      ⟨[97, 108, 105], [115, 101, 99, 114, 101, 116, 49]⟩).2.2.2.2.2 rfl
      (by decide) (by decide) (by decide) (by decide) (by decide)
  · exact (register_decision_ladder false (fun p => p) [115] 10 0 ⟨[], [], 1, 1⟩
      ⟨[97, 108, 105], [115, 101, 99, 114, 101, 116, 49]⟩).1 rfl

/-- C9 counterexample: a signing secret that is present but empty is falsy in
the `if (!JWT_SECRET)` guard, so the process exits even though the
configuration value is present. -/
theorem jwtInit_empty_secret_exits :
    jwtInit (some []) = .fatalExit ∧ (some ([] : List Nat)) ≠ none := by
  refine ⟨rfl, by simp⟩

/-- C9 (amended): the token module refuses to start (terminates the process)
when the signing secret is absent or empty, and initializes successfully
when a nonempty secret is present. -/
theorem jwtInit_fail_fast (v : Option (List Nat)) :
    (v = none → jwtInit v = .fatalExit) ∧
    (v = some [] → jwtInit v = .fatalExit) ∧
    (∀ sec, v = some sec → sec ≠ [] → jwtInit v = .ok sec) := by
  refine ⟨?_, ?_, ?_⟩
  · intro h
    rw [h]
    rfl
  · intro h
    rw [h]
    rfl
  · intro sec h hs
    rw [h]
    have : sec.isEmpty = false := by
      cases hx : sec with
      | nil => exact absurd hx hs
      | cons a l => simp
    simp [jwtInit, this]

/-- C9 witness: concrete startup outcomes for a missing and for a present
nonempty secret. -/
theorem jwtInit_fail_fast_witness :
    jwtInit none = .fatalExit ∧ jwtInit (some [115]) = .ok [115] := by
  exact ⟨(jwtInit_fail_fast none).1 rfl,
         (jwtInit_fail_fast (some [115])).2.2 [115] rfl (by simp)⟩

/-! ### Claims about the token service -/

set_option maxRecDepth 10000 in
set_option maxHeartbeats 4000000 in
/-- Models the concrete evaluation of `createToken` on the demonstration
inputs: the token it produces is exactly the literal byte list `demoToken`. -/
theorem demoToken_eq : createToken [115, 101, 99] 100 1 [97] 5 = demoToken := by
  decide

set_option maxRecDepth 10000 in
set_option maxHeartbeats 4000000 in
/-- C3 counterexample: two concrete acceptances falsify the claim as stated.
First, a well-formed, correctly signed token whose expiry claim equals the
current time is accepted — the source checks `payload.exp < now`, so at
`now = exp` (current time ≥ expiry per the claim) it returns the claims
instead of null.  Second, a single-byte flip of the signature segment is
accepted when it alters only the two surplus bits of the final base64url
character: the demo token's signature ends in character 115 (`s`, alphabet
index 44); flipping that byte to 116 (`t`, index 45) decodes — under the
forgiving `atob`, which discards the surplus bits of a trailing 3-character
group — to the very same HMAC bytes, so the mutated token still verifies to
its claims well before expiry. -/
theorem verifyToken_at_expiry_or_flipped_sig_accepted :
    (verifyToken [115, 101, 99] (createToken [115, 101, 99] 0 1 [97] 5) 5 =
        some ⟨1, [97], 5, 5⟩ ∧ 5 ≥ 5) ∧
    ((createToken [115, 101, 99] 100 1 [97] 5).getLast? = some 115 ∧
     (createToken [115, 101, 99] 100 1 [97] 5).dropLast ++ [116] ≠
       createToken [115, 101, 99] 100 1 [97] 5 ∧
     verifyToken [115, 101, 99]
       ((createToken [115, 101, 99] 100 1 [97] 5).dropLast ++ [116]) 5 =
       some ⟨1, [97], 5, 105⟩) :=
  ⟨⟨by decide, le_refl 5⟩, by rw [demoToken_eq]; decide,
   by rw [demoToken_eq]; decide, by rw [demoToken_eq]; decide⟩

/-- C3 (amended): `verifyToken` is a total function (the model of every
source failure path, including caught exceptions, is `none`) and returns
`none` whenever the token does not split on `.` into exactly three parts,
whenever the signature segment does not base64url-decode to exactly the
recomputed HMAC-SHA256 bytes (in particular when decoding fails), and
whenever the current time is strictly greater than the expiry claim; a token
verified at exactly its expiry time is accepted. -/
theorem verifyToken_failure_modes (secret token : List Nat) (now : Nat) :
    ((splitOnByte 46 token).length ≠ 3 → verifyToken secret token now = none) ∧
    (∀ hdr p sig, splitOnByte 46 token = [hdr, p, sig] →
       (∀ sigBytes, base64UrlToUint8Array sig = some sigBytes →
          sigBytes ≠ hmacSha256 secret (hdr ++ [46] ++ p)) →
       verifyToken secret token now = none) ∧
    (∀ hdr p sig payload, splitOnByte 46 token = [hdr, p, sig] →
       (base64UrlToUint8Array p).bind parsePayload = some payload →
       payload.exp < now →
       verifyToken secret token now = none) := by
  refine ⟨?_, ?_, ?_⟩
  · intro hlen
    rcases hsp : splitOnByte 46 token with _ | ⟨a, _ | ⟨b, _ | ⟨c, _ | ⟨d, tl⟩⟩⟩⟩
    · simp [verifyToken, hsp]
    · simp [verifyToken, hsp]
    · simp [verifyToken, hsp]
    · rw [hsp] at hlen
      simp at hlen
    · simp [verifyToken, hsp]
  · intro hdr p sig hsp hne
    cases hdec : base64UrlToUint8Array sig with
    | none => simp [verifyToken, hsp, hdec]
    | some sb =>
      simp only [verifyToken, hsp, hdec]
      have hcond : ¬ ((sb == hmacSha256 secret (hdr ++ [46] ++ p)) = true) := by
        intro h'
        exact absurd (by simpa using h') (hne sb hdec)
      rw [if_neg hcond]
  · intro hdr p sig payload hsp hparse hexp
    cases hdec : base64UrlToUint8Array sig with
    | none => simp [verifyToken, hsp, hdec]
    | some sb =>
      simp only [verifyToken, hsp, hdec]
      by_cases hsb : (sb == hmacSha256 secret (hdr ++ [46] ++ p)) = true
      · rw [if_pos hsb]
        cases hpd : base64UrlToUint8Array p with
        | none => rfl
        | some pb =>
          rw [hpd] at hparse
          simp only [Option.some_bind] at hparse
          simp [hparse, hexp]
      · rw [if_neg hsb]

/-- C3 witness: a token without dots is malformed and verifies to null. -/
theorem verifyToken_failure_modes_witness : verifyToken [115] [97] 0 = none :=
  (verifyToken_failure_modes [115] [97] 0).1 (by decide)

/-! ### Byte bounds for the hash output -/

/-- The byte-extraction fold produces only bytes. -/
theorem foldr_bytes_lt (l acc : List Nat) (hacc : ∀ b ∈ acc, b < 256) :
    ∀ b ∈ l.foldr (fun w acc =>
        w / 16777216 % 256 :: w / 65536 % 256 :: w / 256 % 256 :: w % 256 :: acc)
      acc, b < 256 := by
  induction l with
  | nil => simpa using hacc
  | cons x t ih =>
    intro b hb
    simp only [List.foldr_cons, List.mem_cons] at hb
    rcases hb with rfl | rfl | rfl | rfl | hb
    · exact Nat.mod_lt _ (by omega)
    · exact Nat.mod_lt _ (by omega)
    · exact Nat.mod_lt _ (by omega)
    · exact Nat.mod_lt _ (by omega)
    · exact ih b hb

/-- SHA-256 output entries are bytes. -/
theorem sha256_byte_lt (msg : List Nat) : ∀ b ∈ sha256 msg, b < 256 := by
  simp only [sha256]
  exact foldr_bytes_lt _ _ (by simp)

/-- HMAC-SHA256 output entries are bytes. -/
theorem hmacSha256_byte_lt (key msg : List Nat) :
    ∀ b ∈ hmacSha256 key msg, b < 256 := by
  simp only [hmacSha256]
  exact sha256_byte_lt _

/-! ### Base64 alphabet facts (finite checks) -/

/-- Decoding a base64 character recovers its index. -/
theorem b64CharIdx_stdB64Char : ∀ i < 64, b64CharIdx (stdB64Char i) = some i := by
  decide

/-- The url-safe replacement is undone by the reverse replacement. -/
theorem stdOfUrl_urlOfStd_char :
    ∀ i < 64, stdOfUrl (urlOfStd (stdB64Char i)) = stdB64Char i := by decide

/-- No url-safe alphabet character is `=`. -/
theorem urlChar_ne_61 : ∀ i < 64, (urlOfStd (stdB64Char i) != 61) = true := by
  decide

/-- No url-safe alphabet character is `.`. -/
theorem urlChar_ne_46 : ∀ i < 64, urlOfStd (stdB64Char i) ≠ 46 := by decide

/-- No standard alphabet character is `=`. -/
theorem stdChar_ne_61 : ∀ i < 64, stdB64Char i ≠ 61 := by decide

/-- No standard alphabet character is ASCII whitespace. -/
theorem stdChar_not_ws : ∀ i < 64, isAsciiWs (stdB64Char i) = false := by decide

/-! ### Shape of the base64url encoder output -/

/-- Encoding the empty byte array. -/
theorem urlEnc_nil : uint8ArrayToBase64Url [] = [] := rfl

/-- Encoding a single trailing byte: two characters, padding dropped. -/
theorem urlEnc_one (a : Nat) (ha : a < 256) :
    uint8ArrayToBase64Url [a] =
      [urlOfStd (stdB64Char (a / 4)), urlOfStd (stdB64Char (a % 4 * 16))] := by
  have h1 : a / 4 < 64 := by omega
  have h2 : a % 4 * 16 < 64 := by omega
  simp only [uint8ArrayToBase64Url, base64EncodeStd, List.map_cons, List.map_nil,
    List.filter_cons, List.filter_nil, urlChar_ne_61 _ h1, urlChar_ne_61 _ h2]
  norm_num [urlOfStd]

/-- Encoding two trailing bytes: three characters, padding dropped. -/
theorem urlEnc_two (a b : Nat) (ha : a < 256) (hb : b < 256) :
    uint8ArrayToBase64Url [a, b] =
      [urlOfStd (stdB64Char (a / 4)), urlOfStd (stdB64Char (a % 4 * 16 + b / 16)),
       urlOfStd (stdB64Char (b % 16 * 4))] := by
  have h1 : a / 4 < 64 := by omega
  have h2 : a % 4 * 16 + b / 16 < 64 := by omega
  have h3 : b % 16 * 4 < 64 := by omega
  simp only [uint8ArrayToBase64Url, base64EncodeStd, List.map_cons, List.map_nil,
    List.filter_cons, List.filter_nil, urlChar_ne_61 _ h1, urlChar_ne_61 _ h2,
    urlChar_ne_61 _ h3]
  norm_num [urlOfStd]

/-- Encoding a full three-byte group prepends four characters. -/
theorem urlEnc_cons3 (a b c : Nat) (rest : List Nat)
    (ha : a < 256) (hb : b < 256) (hc : c < 256) :
    uint8ArrayToBase64Url (a :: b :: c :: rest) =
      urlOfStd (stdB64Char (a / 4)) :: urlOfStd (stdB64Char (a % 4 * 16 + b / 16)) ::
      urlOfStd (stdB64Char (b % 16 * 4 + c / 64)) :: urlOfStd (stdB64Char (c % 64)) ::
      uint8ArrayToBase64Url rest := by
  have h1 : a / 4 < 64 := by omega
  have h2 : a % 4 * 16 + b / 16 < 64 := by omega
  have h3 : b % 16 * 4 + c / 64 < 64 := by omega
  have h4 : c % 64 < 64 := by omega
  simp only [uint8ArrayToBase64Url, base64EncodeStd, List.map_cons,
    List.filter_cons, urlChar_ne_61 _ h1, urlChar_ne_61 _ h2,
    urlChar_ne_61 _ h3, urlChar_ne_61 _ h4, if_true]

/-! ### Behaviour of the padding stripper -/

/-- Stripping a two-`=` suffix. -/
theorem stripPad61_two61 (l : List Nat) : stripPad61 (l ++ [61, 61]) = l := by
  unfold stripPad61
  rw [List.reverse_append]
  simp

/-- A single `=` suffix after a non-`=` character is stripped. -/
theorem stripPad61_one61 (l : List Nat) (x : Nat) (hx : x ≠ 61) :
    stripPad61 (l ++ [x, 61]) = l ++ [x] := by
  unfold stripPad61
  rw [List.reverse_append]
  simp only [List.reverse_cons, List.reverse_nil, List.nil_append,
    List.cons_append, List.append_nil]
  split
  · next t heq =>
    rw [List.cons.injEq, List.cons.injEq] at heq
    exact absurd heq.2.1 hx
  · next t heq =>
    rw [List.cons.injEq] at heq
    rw [← heq.2]
    simp
  · next h1 h2 =>
    exact absurd rfl (h2 (x :: l.reverse))

/-- A list not ending in `=` is left untouched. -/
theorem stripPad61_last_ne (l : List Nat) (x : Nat) (hx : x ≠ 61) :
    stripPad61 (l ++ [x]) = l ++ [x] := by
  unfold stripPad61
  rw [List.reverse_append]
  simp only [List.reverse_cons, List.reverse_nil, List.nil_append,
    List.cons_append, List.append_nil]
  split
  · next t heq =>
    rw [List.cons.injEq] at heq
    exact absurd heq.1 hx
  · next t heq =>
    rw [List.cons.injEq] at heq
    exact absurd heq.1 hx
  · rfl

/-- Stripping ignores a prefix once at least two characters follow it. -/
theorem stripPad61_append (l P : List Nat) (hP : 2 ≤ P.length) :
    stripPad61 (l ++ P) = l ++ stripPad61 P := by
  rcases hrev : P.reverse with _ | ⟨z, _ | ⟨y, rest⟩⟩
  · have : P = [] := by simpa using congrArg List.reverse hrev
    subst this
    simp at hP
  · have : P = [z] := by
      have := congrArg List.reverse hrev
      simpa using this
    subst this
    simp at hP
  · have hPeq : P = rest.reverse ++ [y, z] := by
      have := congrArg List.reverse hrev
      simpa using this
    subst hPeq
    by_cases hz : z = 61
    · by_cases hy : y = 61
      · subst hz hy
        rw [← List.append_assoc, stripPad61_two61, stripPad61_two61]
      · subst hz
        rw [← List.append_assoc, stripPad61_one61 _ _ hy,
          stripPad61_one61 _ _ hy, List.append_assoc]
    · rw [show rest.reverse ++ [y, z] = (rest.reverse ++ [y]) ++ [z] by simp,
        ← List.append_assoc, stripPad61_last_ne _ _ hz, stripPad61_last_ne _ _ hz]
      simp

/-! ### Decoding the groups the encoder produced -/

/-- Decoding a trailing 2-character group recovers its byte. -/
theorem decodeB64Body_two (a : Nat) (ha : a < 256) :
    decodeB64Body [stdB64Char (a / 4), stdB64Char (a % 4 * 16)] = some [a] := by
  have h1 : a / 4 < 64 := by omega
  have h2 : a % 4 * 16 < 64 := by omega
  simp only [decodeB64Body, b64CharIdx_stdB64Char _ h1,
    b64CharIdx_stdB64Char _ h2]
  simp
  omega

/-- Decoding a trailing 3-character group recovers its two bytes. -/
theorem decodeB64Body_three (a b : Nat) (ha : a < 256) (hb : b < 256) :
    decodeB64Body [stdB64Char (a / 4), stdB64Char (a % 4 * 16 + b / 16),
      stdB64Char (b % 16 * 4)] = some [a, b] := by
  have h1 : a / 4 < 64 := by omega
  have h2 : a % 4 * 16 + b / 16 < 64 := by omega
  have h3 : b % 16 * 4 < 64 := by omega
  simp only [decodeB64Body, b64CharIdx_stdB64Char _ h1,
    b64CharIdx_stdB64Char _ h2, b64CharIdx_stdB64Char _ h3]
  simp
  omega

/-- Decoding a full 4-character group prepends its three bytes. -/
theorem decodeB64Body_group (a b c : Nat) (T : List Nat)
    (ha : a < 256) (hb : b < 256) (hc : c < 256) :
    decodeB64Body (stdB64Char (a / 4) :: stdB64Char (a % 4 * 16 + b / 16) ::
        stdB64Char (b % 16 * 4 + c / 64) :: stdB64Char (c % 64) :: T) =
      (decodeB64Body T).map (fun tl => a :: b :: c :: tl) := by
  have h1 : a / 4 < 64 := by omega
  have h2 : a % 4 * 16 + b / 16 < 64 := by omega
  have h3 : b % 16 * 4 + c / 64 < 64 := by omega
  have h4 : c % 64 < 64 := by omega
  simp only [decodeB64Body, b64CharIdx_stdB64Char _ h1,
    b64CharIdx_stdB64Char _ h2, b64CharIdx_stdB64Char _ h3,
    b64CharIdx_stdB64Char _ h4]
  cases decodeB64Body T with
  | none => simp
  | some tl =>
    simp
    omega

/-! ### Characters of the encoder output -/

/-- Every character the url-safe encoder emits comes from the alphabet. -/
theorem urlEnc_chars (arr : List Nat) (h : ∀ b ∈ arr, b < 256) :
    ∀ ch ∈ uint8ArrayToBase64Url arr,
      ∃ i, i < 64 ∧ ch = urlOfStd (stdB64Char i) := by
  have H : ∀ n (arr : List Nat), arr.length ≤ n → (∀ b ∈ arr, b < 256) →
      ∀ ch ∈ uint8ArrayToBase64Url arr,
        ∃ i, i < 64 ∧ ch = urlOfStd (stdB64Char i) := by
    intro n
    induction n with
    | zero =>
      intro arr hle _
      have : arr = [] := by
        cases arr with
        | nil => rfl
        | cons x t => simp at hle
      subst this
      simp [urlEnc_nil]
    | succ n ih =>
      intro arr hle hb
      rcases arr with _ | ⟨a, _ | ⟨b, _ | ⟨c, rest⟩⟩⟩
      · simp [urlEnc_nil]
      · have ha : a < 256 := hb a (by simp)
        rw [urlEnc_one a ha]
        intro ch hch
        simp only [List.mem_cons, List.not_mem_nil, or_false] at hch
        rcases hch with rfl | rfl
        · exact ⟨a / 4, by omega, rfl⟩
        · exact ⟨a % 4 * 16, by omega, rfl⟩
      · have ha : a < 256 := hb a (by simp)
        have hbb : b < 256 := hb b (by simp)
        rw [urlEnc_two a b ha hbb]
        intro ch hch
        simp only [List.mem_cons, List.not_mem_nil, or_false] at hch
        rcases hch with rfl | rfl | rfl
        · exact ⟨a / 4, by omega, rfl⟩
        · exact ⟨a % 4 * 16 + b / 16, by omega, rfl⟩
        · exact ⟨b % 16 * 4, by omega, rfl⟩
      · have ha : a < 256 := hb a (by simp)
        have hbb : b < 256 := hb b (by simp)
        have hc : c < 256 := hb c (by simp)
        have hrest : ∀ x ∈ rest, x < 256 := fun x hx => hb x (by simp [hx])
        have hlen : rest.length ≤ n := by
          simp only [List.length_cons] at hle
          omega
        rw [urlEnc_cons3 a b c rest ha hbb hc]
        intro ch hch
        simp only [List.mem_cons] at hch
        rcases hch with rfl | rfl | rfl | rfl | hch
        · exact ⟨a / 4, by omega, rfl⟩
        · exact ⟨a % 4 * 16 + b / 16, by omega, rfl⟩
        · exact ⟨b % 16 * 4 + c / 64, by omega, rfl⟩
        · exact ⟨c % 64, by omega, rfl⟩
        · exact ih rest hlen hrest ch hch
  exact H arr.length arr (le_refl _) h

/-- The encoder never emits a `.` character. -/
theorem urlEnc_ne_46 (arr : List Nat) (h : ∀ b ∈ arr, b < 256) :
    ∀ ch ∈ uint8ArrayToBase64Url arr, ch ≠ 46 := by
  intro ch hch
  obtain ⟨i, hi, rfl⟩ := urlEnc_chars arr h ch hch
  exact urlChar_ne_46 i hi

/-! ### The base64url round trip -/

/-- Applying `atobDecode` to an input of length divisible by 4 strips padding and
decodes the body. -/
theorem atobDecode_of_mod (s : List Nat)
    (hws : ∀ c ∈ s, isAsciiWs c = false) (hs : s.length % 4 = 0) :
    atobDecode s = decodeB64Body (stripPad61 s) := by
  unfold atobDecode
  rw [List.filter_eq_self.mpr (fun c hc => by simp [hws c hc])]
  show decodeB64Body (if (s.length % 4 == 0) = true then stripPad61 s else s) =
    decodeB64Body (stripPad61 s)
  rw [if_pos (by simp [hs])]

/-- Unfolding `base64UrlToUint8Array` to its `atob` call. -/
theorem b64url_decode_eq (s : List Nat) :
    base64UrlToUint8Array s = atobDecode (s.map stdOfUrl ++
      List.replicate ((4 - s.length % 4) % 4) 61) := by
  simp [base64UrlToUint8Array]

/-- Decoding a 2-character whitespace-free base64url string. -/
theorem b64url_decode_two (x y : Nat)
    (hx : isAsciiWs (stdOfUrl x) = false) (hy : isAsciiWs (stdOfUrl y) = false) :
    base64UrlToUint8Array [x, y] =
      decodeB64Body (stripPad61 [stdOfUrl x, stdOfUrl y, 61, 61]) := by
  rw [b64url_decode_eq]
  simp only [List.map_cons, List.map_nil, List.length_cons, List.length_nil]
  norm_num
  rw [show List.replicate 2 (61 : Nat) = [61, 61] from rfl,
    atobDecode_of_mod _ (by
      intro c hc
      simp only [List.mem_cons, List.not_mem_nil, or_false] at hc
      rcases hc with rfl | rfl | rfl | rfl
      · exact hx
      · exact hy
      · decide
      · decide) (by simp)]

/-- Decoding a 3-character whitespace-free base64url string. -/
theorem b64url_decode_three (x y z : Nat)
    (hx : isAsciiWs (stdOfUrl x) = false) (hy : isAsciiWs (stdOfUrl y) = false)
    (hz : isAsciiWs (stdOfUrl z) = false) :
    base64UrlToUint8Array [x, y, z] =
      decodeB64Body (stripPad61 [stdOfUrl x, stdOfUrl y, stdOfUrl z, 61]) := by
  rw [b64url_decode_eq]
  simp only [List.map_cons, List.map_nil, List.length_cons, List.length_nil]
  norm_num
  rw [atobDecode_of_mod _ (by
      intro c hc
      simp only [List.mem_cons, List.not_mem_nil, or_false] at hc
      rcases hc with rfl | rfl | rfl | rfl
      · exact hx
      · exact hy
      · exact hz
      · decide) (by simp)]

/-- Peeling one 4-character group off the front of a base64url decode. -/
theorem b64url_decode_cons4 (x1 x2 x3 x4 : Nat) (R : List Nat) :
    base64UrlToUint8Array (x1 :: x2 :: x3 :: x4 :: R) =
      atobDecode (stdOfUrl x1 :: stdOfUrl x2 :: stdOfUrl x3 :: stdOfUrl x4 ::
        (R.map stdOfUrl ++ List.replicate ((4 - R.length % 4) % 4) 61)) := by
  unfold base64UrlToUint8Array
  simp only [List.map_cons, List.length_cons, List.length_map]
  rw [show ∀ L : Nat, (4 - (L + 1 + 1 + 1 + 1) % 4) % 4 = (4 - L % 4) % 4 from
    fun L => by omega]
  simp

/-- The padded, url-reversed pipeline input contains no ASCII whitespace. -/
theorem pipeline_not_ws (arr : List Nat) (h : ∀ b ∈ arr, b < 256) (n : Nat) :
    ∀ c ∈ (uint8ArrayToBase64Url arr).map stdOfUrl ++ List.replicate n 61,
      isAsciiWs c = false := by
  intro c hc
  rcases List.mem_append.mp hc with hc | hc
  · obtain ⟨ch, hch, rfl⟩ := List.mem_map.mp hc
    obtain ⟨i, hi, rfl⟩ := urlEnc_chars arr h ch hch
    rw [stdOfUrl_urlOfStd_char _ hi]
    exact stdChar_not_ws _ hi
  · rw [List.eq_of_mem_replicate hc]
    decide

/-- Decoding the url-safe encoding of a byte array recovers it exactly
(`base64UrlToUint8Array ∘ uint8ArrayToBase64Url = some` on bytes). -/
theorem b64_roundtrip (arr : List Nat) (h : ∀ b ∈ arr, b < 256) :
    base64UrlToUint8Array (uint8ArrayToBase64Url arr) = some arr := by
  have H : ∀ n (arr : List Nat), arr.length ≤ n → (∀ b ∈ arr, b < 256) →
      base64UrlToUint8Array (uint8ArrayToBase64Url arr) = some arr := by
    intro n
    induction n with
    | zero =>
      intro arr hle _
      have : arr = [] := by
        cases arr with
        | nil => rfl
        | cons x t => simp at hle
      subst this
      rfl
    | succ n ih =>
      intro arr hle hb
      rcases arr with _ | ⟨a, _ | ⟨b, _ | ⟨c, rest⟩⟩⟩
      · rfl
      · have ha : a < 256 := hb a (by simp)
        have h1 : a / 4 < 64 := by omega
        have h2 : a % 4 * 16 < 64 := by omega
        rw [urlEnc_one a ha, b64url_decode_two _ _
          (by rw [stdOfUrl_urlOfStd_char _ h1]; exact stdChar_not_ws _ h1)
          (by rw [stdOfUrl_urlOfStd_char _ h2]; exact stdChar_not_ws _ h2)]
        simp only [stdOfUrl_urlOfStd_char _ h1, stdOfUrl_urlOfStd_char _ h2]
        rw [show [stdB64Char (a / 4), stdB64Char (a % 4 * 16), 61, 61] =
          [stdB64Char (a / 4), stdB64Char (a % 4 * 16)] ++ ([61, 61] : List Nat)
          from rfl, stripPad61_two61]
        exact decodeB64Body_two a ha
      · have ha : a < 256 := hb a (by simp)
        have hbb : b < 256 := hb b (by simp)
        have h1 : a / 4 < 64 := by omega
        have h2 : a % 4 * 16 + b / 16 < 64 := by omega
        have h3 : b % 16 * 4 < 64 := by omega
        rw [urlEnc_two a b ha hbb, b64url_decode_three _ _ _
          (by rw [stdOfUrl_urlOfStd_char _ h1]; exact stdChar_not_ws _ h1)
          (by rw [stdOfUrl_urlOfStd_char _ h2]; exact stdChar_not_ws _ h2)
          (by rw [stdOfUrl_urlOfStd_char _ h3]; exact stdChar_not_ws _ h3)]
        simp only [stdOfUrl_urlOfStd_char _ h1, stdOfUrl_urlOfStd_char _ h2,
          stdOfUrl_urlOfStd_char _ h3]
        rw [show [stdB64Char (a / 4), stdB64Char (a % 4 * 16 + b / 16),
            stdB64Char (b % 16 * 4), 61] =
          [stdB64Char (a / 4), stdB64Char (a % 4 * 16 + b / 16)] ++
            ([stdB64Char (b % 16 * 4), 61] : List Nat) from rfl,
          stripPad61_one61 _ _ (stdChar_ne_61 _ h3)]
        exact decodeB64Body_three a b ha hbb
      · have ha : a < 256 := hb a (by simp)
        have hbb : b < 256 := hb b (by simp)
        have hc : c < 256 := hb c (by simp)
        have hrest : ∀ x ∈ rest, x < 256 := fun x hx => hb x (by simp [hx])
        have hlen : rest.length ≤ n := by
          simp only [List.length_cons] at hle
          omega
        have h1 : a / 4 < 64 := by omega
        have h2 : a % 4 * 16 + b / 16 < 64 := by omega
        have h3 : b % 16 * 4 + c / 64 < 64 := by omega
        have h4 : c % 64 < 64 := by omega
        have IH := ih rest hlen hrest
        rw [b64url_decode_eq] at IH
        rw [urlEnc_cons3 a b c rest ha hbb hc, b64url_decode_cons4]
        simp only [stdOfUrl_urlOfStd_char _ h1, stdOfUrl_urlOfStd_char _ h2,
          stdOfUrl_urlOfStd_char _ h3, stdOfUrl_urlOfStd_char _ h4]
        have hwsP := pipeline_not_ws rest hrest
          ((4 - (uint8ArrayToBase64Url rest).length % 4) % 4)
        have hP4 : ((uint8ArrayToBase64Url rest).map stdOfUrl ++
            List.replicate ((4 - (uint8ArrayToBase64Url rest).length % 4) % 4)
              61).length % 4 = 0 := by
          simp only [List.length_append, List.length_map, List.length_replicate]
          omega
        by_cases hPnil : (uint8ArrayToBase64Url rest).map stdOfUrl ++
            List.replicate ((4 - (uint8ArrayToBase64Url rest).length % 4) % 4)
              61 = []
        · have hrestnil : rest = [] := by
            rw [hPnil, show (atobDecode [] : Option (List Nat)) = some []
              from rfl] at IH
            simpa using IH.symm
          subst hrestnil
          rw [hPnil]
          rw [show stdB64Char (a / 4) :: stdB64Char (a % 4 * 16 + b / 16) ::
              stdB64Char (b % 16 * 4 + c / 64) :: stdB64Char (c % 64) ::
              ([] : List Nat) =
            [stdB64Char (a / 4), stdB64Char (a % 4 * 16 + b / 16),
              stdB64Char (b % 16 * 4 + c / 64)] ++ [stdB64Char (c % 64)]
            from rfl]
          rw [atobDecode_of_mod _ (by
              intro ch hch
              have hm : ch = stdB64Char (a / 4) ∨
                  ch = stdB64Char (a % 4 * 16 + b / 16) ∨
                  ch = stdB64Char (b % 16 * 4 + c / 64) ∨
                  ch = stdB64Char (c % 64) := by
                simpa using hch
              rcases hm with rfl | rfl | rfl | rfl
              · exact stdChar_not_ws _ h1
              · exact stdChar_not_ws _ h2
              · exact stdChar_not_ws _ h3
              · exact stdChar_not_ws _ h4) (by simp),
            stripPad61_last_ne _ _ (stdChar_ne_61 _ h4)]
          rw [show [stdB64Char (a / 4), stdB64Char (a % 4 * 16 + b / 16),
              stdB64Char (b % 16 * 4 + c / 64)] ++ [stdB64Char (c % 64)] =
            stdB64Char (a / 4) :: stdB64Char (a % 4 * 16 + b / 16) ::
              stdB64Char (b % 16 * 4 + c / 64) :: stdB64Char (c % 64) ::
              ([] : List Nat) from rfl]
          rw [decodeB64Body_group a b c [] ha hbb hc]
          rfl
        · have hP2 : 2 ≤ ((uint8ArrayToBase64Url rest).map stdOfUrl ++
              List.replicate ((4 - (uint8ArrayToBase64Url rest).length % 4) % 4)
                61).length := by
            have hne : ((uint8ArrayToBase64Url rest).map stdOfUrl ++
                List.replicate
                  ((4 - (uint8ArrayToBase64Url rest).length % 4) % 4)
                  61).length ≠ 0 := by
              simpa [List.length_eq_zero] using hPnil
            omega
          rw [show stdB64Char (a / 4) :: stdB64Char (a % 4 * 16 + b / 16) ::
              stdB64Char (b % 16 * 4 + c / 64) :: stdB64Char (c % 64) ::
              ((uint8ArrayToBase64Url rest).map stdOfUrl ++
                List.replicate
                  ((4 - (uint8ArrayToBase64Url rest).length % 4) % 4) 61) =
            [stdB64Char (a / 4), stdB64Char (a % 4 * 16 + b / 16),
              stdB64Char (b % 16 * 4 + c / 64), stdB64Char (c % 64)] ++
              ((uint8ArrayToBase64Url rest).map stdOfUrl ++
                List.replicate
                  ((4 - (uint8ArrayToBase64Url rest).length % 4) % 4) 61)
            from rfl]
          rw [atobDecode_of_mod _ (by
              intro ch hch
              rcases List.mem_append.mp hch with hm | hm
              · have : ch = stdB64Char (a / 4) ∨
                    ch = stdB64Char (a % 4 * 16 + b / 16) ∨
                    ch = stdB64Char (b % 16 * 4 + c / 64) ∨
                    ch = stdB64Char (c % 64) := by
                  simpa using hm
                rcases this with rfl | rfl | rfl | rfl
                · exact stdChar_not_ws _ h1
                · exact stdChar_not_ws _ h2
                · exact stdChar_not_ws _ h3
                · exact stdChar_not_ws _ h4
              · exact hwsP ch hm) (by
              simp only [List.length_append, List.length_map,
                List.length_replicate, List.length_cons, List.length_nil]
              omega),
            stripPad61_append _ _ hP2]
          rw [show ([stdB64Char (a / 4), stdB64Char (a % 4 * 16 + b / 16),
              stdB64Char (b % 16 * 4 + c / 64), stdB64Char (c % 64)] : List Nat)
              ++ stripPad61 ((uint8ArrayToBase64Url rest).map stdOfUrl ++
                List.replicate
                  ((4 - (uint8ArrayToBase64Url rest).length % 4) % 4) 61) =
            stdB64Char (a / 4) :: stdB64Char (a % 4 * 16 + b / 16) ::
              stdB64Char (b % 16 * 4 + c / 64) :: stdB64Char (c % 64) ::
              stripPad61 ((uint8ArrayToBase64Url rest).map stdOfUrl ++
                List.replicate
                  ((4 - (uint8ArrayToBase64Url rest).length % 4) % 4) 61)
            from rfl]
          rw [decodeB64Body_group a b c _ ha hbb hc]
          rw [← atobDecode_of_mod _ hwsP hP4, IH]
          rfl
  exact H arr.length arr (le_refl _) h

/-! ### Splitting on the dot separator -/

/-- The function `splitOnByte` always yields at least one part. -/
theorem splitOnByte_ne_nil (d : Nat) (s : List Nat) : splitOnByte d s ≠ [] := by
  induction s with
  | nil => simp [splitOnByte]
  | cons c t ih =>
    simp only [splitOnByte]
    cases hsp : splitOnByte d t with
    | nil => simp
    | cons hh tt =>
      by_cases hc : (c == d) = true <;> simp [hc]

/-- A separator-free string is one part. -/
theorem splitOnByte_no_sep (d : Nat) (a : List Nat) (h : ∀ c ∈ a, c ≠ d) :
    splitOnByte d a = [a] := by
  induction a with
  | nil => rfl
  | cons x t ih =>
    have hx : (x == d) = false := by simpa using h x (by simp)
    have ht := ih (fun c hc => h c (by simp [hc]))
    simp [splitOnByte, ht, hx]

/-- Splitting peels off a separator-free prefix before a separator. -/
theorem splitOnByte_sep_append (d : Nat) (a rest : List Nat)
    (h : ∀ c ∈ a, c ≠ d) :
    splitOnByte d (a ++ d :: rest) = a :: splitOnByte d rest := by
  induction a with
  | nil =>
    simp only [List.nil_append, splitOnByte]
    cases hsp : splitOnByte d rest with
    | nil => exact absurd hsp (splitOnByte_ne_nil d rest)
    | cons hh tt => simp
  | cons x t ih =>
    have hx : (x == d) = false := by simpa using h x (by simp)
    have ht := ih (fun c hc => h c (by simp [hc]))
    simp [splitOnByte, ht, hx]

/-! ### Digit strings and the payload grammar -/

/-- Digit characters produced by the encoder are in `48..57`. -/
theorem natToDigitsAux_bounds :
    ∀ fuel n, ∀ d ∈ natToDigitsAux fuel n, 48 ≤ d ∧ d ≤ 57 := by
  intro fuel
  induction fuel with
  | zero => intro n d hd; simp [natToDigitsAux] at hd
  | succ f ih =>
    intro n d hd
    simp only [natToDigitsAux] at hd
    by_cases hn : n < 10
    · simp [hn] at hd
      omega
    · simp only [hn, if_false, List.mem_append, List.mem_singleton] at hd
      rcases hd with hd | hd
      · exact ih (n / 10) d hd
      · subst hd
        have : n % 10 < 10 := Nat.mod_lt _ (by omega)
        omega

/-- Digit characters of a number are in `48..57`. -/
theorem natToDigits_bounds (n : Nat) : ∀ d ∈ natToDigits n, 48 ≤ d ∧ d ≤ 57 :=
  natToDigitsAux_bounds (n + 1) n

/-- The digit string of a number is nonempty. -/
theorem natToDigits_ne_nil (n : Nat) : natToDigits n ≠ [] := by
  unfold natToDigits natToDigitsAux
  by_cases hn : n < 10 <;> simp [hn]

/-- Evaluating the digit string recovers the number. -/
theorem digitsVal_natToDigitsAux :
    ∀ fuel n, n < fuel → digitsVal (natToDigitsAux fuel n) = n := by
  intro fuel
  induction fuel with
  | zero => intro n h; omega
  | succ f ih =>
    intro n h
    simp only [natToDigitsAux]
    by_cases hn : n < 10
    · simp [hn, digitsVal]
    · have hlt : n / 10 < n := Nat.div_lt_self (by omega) (by omega)
      simp only [hn, if_false, digitsVal, List.foldl_append, List.foldl_cons,
        List.foldl_nil]
      have := ih (n / 10) (by omega)
      unfold digitsVal at this
      rw [this]
      omega

/-- Evaluating the digit string recovers the number. -/
theorem digitsVal_natToDigits (n : Nat) : digitsVal (natToDigits n) = n :=
  digitsVal_natToDigitsAux (n + 1) n (by omega)

/-- The function `takeWhile` passes over a prefix that wholly satisfies the predicate. -/
theorem takeWhile_append_all {p : Nat → Bool} (l r : List Nat)
    (h : ∀ c ∈ l, p c = true) :
    (l ++ r).takeWhile p = l ++ r.takeWhile p := by
  induction l with
  | nil => simp
  | cons x t ih =>
    have hx : p x = true := h x (by simp)
    simp [List.takeWhile_cons, hx, ih (fun c hc => h c (by simp [hc]))]

/-- The function `dropWhile` drops a prefix that wholly satisfies the predicate. -/
theorem dropWhile_append_all {p : Nat → Bool} (l r : List Nat)
    (h : ∀ c ∈ l, p c = true) :
    (l ++ r).dropWhile p = r.dropWhile p := by
  induction l with
  | nil => simp
  | cons x t ih =>
    have hx : p x = true := h x (by simp)
    simp [List.dropWhile_cons, hx, ih (fun c hc => h c (by simp [hc]))]

/-- Parsing a serialized number followed by a non-digit terminator. -/
theorem parseNatField_digits (n : Nat) (c : Nat) (rest : List Nat)
    (hc : isDigitCode c = false) :
    parseNatField (natToDigits n ++ c :: rest) = some (n, c :: rest) := by
  have hall : ∀ d ∈ natToDigits n, isDigitCode d = true := by
    intro d hd
    have := natToDigits_bounds n d hd
    simp [isDigitCode]
    omega
  unfold parseNatField
  rw [takeWhile_append_all _ _ hall, dropWhile_append_all _ _ hall]
  rw [show (c :: rest).takeWhile isDigitCode = [] by
      simp [List.takeWhile_cons, hc],
    show (c :: rest).dropWhile isDigitCode = c :: rest by
      simp [List.dropWhile_cons, hc],
    List.append_nil]
  cases hnd : natToDigits n with
  | nil => exact absurd hnd (natToDigits_ne_nil n)
  | cons d ds =>
    have : digitsVal (d :: ds) = n := by
      rw [← hnd]
      exact digitsVal_natToDigits n
    simp [this]

/-- Parsing a serialized number in front of a literal key (which starts with
a non-digit character). -/
theorem parseNatField_before_key (n : Nat) (c : Nat) (key X : List Nat)
    (hc : isDigitCode c = false) :
    parseNatField (natToDigits n ++ ((c :: key) ++ X)) =
      some (n, (c :: key) ++ X) := by
  rw [List.cons_append]
  exact parseNatField_digits n c (key ++ X) hc

/-- Parsing an escape-free string value terminated by its closing quote. -/
theorem parseStrField_safe (u rest : List Nat)
    (h34 : ∀ c ∈ u, c ≠ 34) (h92 : ∀ c ∈ u, c ≠ 92) :
    parseStrField (u ++ 34 :: rest) = some (u, rest) := by
  have hall : ∀ c ∈ u, (c != 34) = true := by
    intro c hc
    simpa using h34 c hc
  unfold parseStrField
  rw [takeWhile_append_all _ _ hall, dropWhile_append_all _ _ hall]
  rw [show (34 :: rest).takeWhile (fun c => c != 34) = [] by simp,
    show (34 :: rest).dropWhile (fun c => c != 34) = 34 :: rest by simp,
    List.append_nil]
  have hall92 : u.all (fun c => c != 92) = true := by
    rw [List.all_eq_true]
    intro c hc
    simpa using h92 c hc
  simp [hall92]

/-- Consuming an expected literal prefix. -/
theorem dropLit_append (lit rest : List Nat) :
    dropLit lit (lit ++ rest) = some rest := by
  have hpre : ∀ (l r : List Nat), l.isPrefixOf (l ++ r) = true := by
    intro l r
    induction l with
    | nil => cases r <;> rfl
    | cons x t ih => simp [List.isPrefixOf, ih]
  unfold dropLit
  rw [if_pos (hpre lit rest)]
  rw [List.drop_left]

/-- Bytes of the serialized payload, given an ASCII username. -/
theorem payloadJson_bytes (p : JWTPayload) (h : ∀ c ∈ p.username, c < 128) :
    ∀ b ∈ payloadJson p, b < 256 := by
  intro b hb
  simp only [payloadJson, List.mem_append, List.mem_singleton, or_assoc] at hb
  rcases hb with hb | hb | hb | hb | rfl | hb | hb | hb | hb | rfl
  · exact (by decide : ∀ x ∈ jsonKeyUserId, x < 256) b hb
  · have := natToDigits_bounds p.userId b hb
    omega
  · exact (by decide : ∀ x ∈ jsonKeyUsername, x < 256) b hb
  · have := h b hb
    omega
  · omega
  · exact (by decide : ∀ x ∈ jsonKeyIat, x < 256) b hb
  · have := natToDigits_bounds p.iat b hb
    omega
  · exact (by decide : ∀ x ∈ jsonKeyExp, x < 256) b hb
  · have := natToDigits_bounds p.exp b hb
    omega
  · omega

/-- Parsing inverts the canonical payload serialization for usernames
free of quote and backslash characters. -/
theorem parsePayload_payloadJson (p : JWTPayload)
    (h34 : ∀ c ∈ p.username, c ≠ 34) (h92 : ∀ c ∈ p.username, c ≠ 92) :
    parsePayload (payloadJson p) = some p := by
  have hshape : payloadJson p =
      jsonKeyUserId ++ (natToDigits p.userId ++ (jsonKeyUsername ++
        (p.username ++ (34 :: (jsonKeyIat ++ (natToDigits p.iat ++
          (jsonKeyExp ++ (natToDigits p.exp ++ [125])))))))) := by
    simp [payloadJson, List.append_assoc]
  have e9 : dropLit [125] [125] = some [] := dropLit_append [125] []
  rw [parsePayload, hshape,
    show jsonKeyUsername =
      44 :: [34, 117, 115, 101, 114, 110, 97, 109, 101, 34, 58, 34] from rfl,
    show jsonKeyExp = 44 :: [34, 101, 120, 112, 34, 58] from rfl]
  simp only [dropLit_append, Option.bind_eq_bind, Option.some_bind,
    fun n X => parseNatField_before_key n 44
      [34, 117, 115, 101, 114, 110, 97, 109, 101, 34, 58, 34] X (by decide),
    fun n X => parseNatField_before_key n 44
      [34, 101, 120, 112, 34, 58] X (by decide),
    fun n => parseNatField_digits n 125 [] (by decide),
    fun rest => parseStrField_safe p.username rest h34 h92,
    e9, List.isEmpty_nil, if_true]

/-- C4: verifying a freshly issued token at the issuance time succeeds and
returns exactly the issued claims (same account id and username, `iat = now`,
`exp = now + lifetime`); verifying the same token at any time strictly past
its expiry returns null.  The username hypothesis marks the boundary of the
byte-level model: usernames are ASCII without `"` or `\`, which the
registration validator guarantees for every account this system creates. -/
theorem token_roundtrip_and_expiry (secret : List Nat) (expiry userId : Nat)
    (username : List Nat) (now : Nat)
    (hsafe : ∀ c ∈ username, c < 128 ∧ c ≠ 34 ∧ c ≠ 92) :
    verifyToken secret (createToken secret expiry userId username now) now =
      some ⟨userId, username, now, now + expiry⟩ ∧
    (∀ t, now + expiry < t →
      verifyToken secret (createToken secret expiry userId username now) t =
        none) := by
  have h128 : ∀ c ∈ username, c < 128 := fun c hc => (hsafe c hc).1
  have h34 : ∀ c ∈ username, c ≠ 34 := fun c hc => (hsafe c hc).2.1
  have h92 : ∀ c ∈ username, c ≠ 92 := fun c hc => (hsafe c hc).2.2
  have hHdrB : ∀ b ∈ jwtHeaderJson, b < 256 := by decide
  have hPayB : ∀ b ∈ payloadJson ⟨userId, username, now, now + expiry⟩,
      b < 256 := payloadJson_bytes _ h128
  have hmain : ∀ T,
      verifyToken secret (createToken secret expiry userId username now) T =
        if now + expiry < T then none
        else some ⟨userId, username, now, now + expiry⟩ := by
    intro T
    have htok : createToken secret expiry userId username now =
        uint8ArrayToBase64Url jwtHeaderJson ++ 46 ::
          (uint8ArrayToBase64Url
              (payloadJson ⟨userId, username, now, now + expiry⟩) ++ 46 ::
            uint8ArrayToBase64Url (hmacSha256 secret
              (uint8ArrayToBase64Url jwtHeaderJson ++ 46 ::
                uint8ArrayToBase64Url
                  (payloadJson ⟨userId, username, now, now + expiry⟩)))) := by
      simp [createToken, jwtSignData, List.append_assoc]
    have hsplit : splitOnByte 46
        (createToken secret expiry userId username now) =
        [uint8ArrayToBase64Url jwtHeaderJson,
         uint8ArrayToBase64Url (payloadJson ⟨userId, username, now, now + expiry⟩),
         uint8ArrayToBase64Url (hmacSha256 secret
           (uint8ArrayToBase64Url jwtHeaderJson ++ 46 ::
             uint8ArrayToBase64Url
               (payloadJson ⟨userId, username, now, now + expiry⟩)))] := by
      rw [htok,
        splitOnByte_sep_append 46 _ _ (urlEnc_ne_46 _ hHdrB),
        splitOnByte_sep_append 46 _ _ (urlEnc_ne_46 _ hPayB),
        splitOnByte_no_sep 46 _ (urlEnc_ne_46 _ (hmacSha256_byte_lt _ _))]
    simp only [verifyToken, hsplit,
      fun msg => b64_roundtrip (hmacSha256 secret msg)
        (hmacSha256_byte_lt secret msg),
      b64_roundtrip _ hPayB,
      parsePayload_payloadJson ⟨userId, username, now, now + expiry⟩ h34 h92,
      List.append_assoc, List.singleton_append, beq_self_eq_true, if_true]
  constructor
  · rw [hmain now, if_neg (by omega)]
  · intro t ht
    rw [hmain t, if_pos ht]

set_option maxRecDepth 10000 in
/-- C4 witness: a concrete issue-then-verify round trip at the issuance time,
and the same token rejected one second past expiry. -/
theorem token_roundtrip_and_expiry_witness :
    verifyToken [107] (createToken [107] 60 2 [98, 111, 98] 100) 100 =
      some ⟨2, [98, 111, 98], 100, 160⟩ ∧
    verifyToken [107] (createToken [107] 60 2 [98, 111, 98] 100) 161 = none := by
  have h := token_roundtrip_and_expiry [107] 60 2 [98, 111, 98] 100 (by decide)
  exact ⟨h.1, h.2 161 (by decide)⟩
